import Mathlib

/-!
# Verification of the kyma repository specification

This file contains a shallow embedding of the code-bearing parts of the
repository and of the subscription-synchronization engine described by its
specification, together with theorems settling the frozen claims.

Two groups of definitions:

* `TableGen`: a direct translation of `hack/table-gen/main.go` (the CRD
  documentation table generator): the `element`/`flatElement` data model,
  `flatten`, `filter`, `flattenArray`, and the two `sort.Slice` calls.
  Go's `sort.Slice(l, less)` guarantees that the resulting slice is sorted
  with respect to `less` (a permutation of the input such that no later
  element is `less` than an earlier one); it is modelled here by an
  insertion sort `sortSlice` realizing exactly that contract.

* `JS`: the JetStream subscription-synchronization engine.  Its
  implementation is not part of the repository snapshot (only its test file
  is present in `hack/table-gen/main.go`, third document, package
  `jetstream`), so the engine is modelled from the specification
  (spec.md §3, §4.2-§4.5, §7) and from the behaviours asserted by the
  tests, as indicated in each doc comment.
-/

namespace TableGen

/-- Translation of the Go struct `flatElement` (main.go:74-79). -/
structure flatElement where
  Path : List String
  Description : String
  ElemType : String
  Required : Bool
deriving DecidableEq, Repr

/-- Translation of the Go struct `element` (main.go:65-72): a tree node with
an optional `items` child (for arrays) and a list of child `properties`.
Go's nil pointer for `items` is `none`. -/
inductive element where
  | mk (name description elemtype : String) (required : Bool)
       (items : Option element) (properties : List element)
deriving Repr

def element.name : element → String
  | .mk n _ _ _ _ _ => n

def element.elemtype : element → String
  | .mk _ _ t _ _ _ => t

/-- Model of Go's `sort.Slice` one-step insertion: insert `x` in front of the
first element `y` with `less x y`. -/
def insertLess (less : α → α → Bool) (x : α) : List α → List α
  | [] => [x]
  | y :: ys => if less x y then x :: y :: ys else y :: insertLess less x ys

/-- Model of Go's `sort.Slice l less`: a sort producing a permutation of `l`
in which no later element is `less` than an earlier one (the documented
contract of `sort.Slice` for a valid `less`). -/
def sortSlice (less : α → α → Bool) : List α → List α
  | [] => []
  | x :: xs => insertLess less x (sortSlice less xs)

theorem mem_insertLess (less : α → α → Bool) (x a : α) (l : List α) :
    a ∈ insertLess less x l ↔ a = x ∨ a ∈ l := by
  induction l with
  | nil => simp [insertLess]
  | cons y ys ih =>
    cases h : less x y with
    | true =>
      simp only [insertLess, h, if_true, List.mem_cons]
    | false =>
      simp only [insertLess, h, Bool.false_eq_true, if_false, List.mem_cons, ih]
      tauto

theorem mem_sortSlice (less : α → α → Bool) (a : α) (l : List α) :
    a ∈ sortSlice less l ↔ a ∈ l := by
  induction l with
  | nil => simp [sortSlice]
  | cons x xs ih => simp [sortSlice, mem_insertLess, ih]

/-- Sortedness of one insertion step, on lists whose members satisfy `P`,
for a comparator that is asymmetric and negatively transitive on `P`. -/
theorem pairwise_insertLess (less : α → α → Bool) (P : α → Prop)
    (asym : ∀ a b, P a → P b → less a b = true → less b a = false)
    (htr : ∀ a b c, P a → P b → P c →
      less b a = false → less c b = false → less c a = false)
    (x : α) (hx : P x) (l : List α) (hl : ∀ a ∈ l, P a)
    (hs : l.Pairwise (fun a b => less b a = false)) :
    (insertLess less x l).Pairwise (fun a b => less b a = false) := by
  induction l with
  | nil => simp [insertLess]
  | cons y ys ih =>
    have hy : P y := hl y (by simp)
    have hys : ∀ a ∈ ys, P a := fun a ha => hl a (by simp [ha])
    rcases List.pairwise_cons.mp hs with ⟨hyys, hsys⟩
    cases h : less x y with
    | true =>
      simp only [insertLess, h, if_true]
      refine List.pairwise_cons.mpr ⟨?_, hs⟩
      intro b hb
      rcases List.mem_cons.mp hb with hb | hb
      · rw [hb]; exact asym x y hx hy h
      · have h1 : less y x = false := asym x y hx hy h
        have h2 : less b y = false := hyys b hb
        exact htr x y b hx hy (hys b hb) h1 h2
    | false =>
      simp only [insertLess, h, if_false, Bool.false_eq_true]
      refine List.pairwise_cons.mpr ⟨?_, ih hys hsys⟩
      intro b hb
      rcases (mem_insertLess less x b ys).mp hb with hb | hb
      · rw [hb]; exact h
      · exact hyys b hb

/-- `sortSlice` produces a list in which no later element is `less` than an
earlier one, provided `less` is a valid comparator on the list's members. -/
theorem pairwise_sortSlice (less : α → α → Bool) (P : α → Prop)
    (asym : ∀ a b, P a → P b → less a b = true → less b a = false)
    (htr : ∀ a b c, P a → P b → P c →
      less b a = false → less c b = false → less c a = false)
    (l : List α) (hl : ∀ a ∈ l, P a) :
    (sortSlice less l).Pairwise (fun a b => less b a = false) := by
  induction l with
  | nil => simp [sortSlice]
  | cons x xs ih =>
    have hx : P x := hl x (by simp)
    have hxs : ∀ a ∈ xs, P a := fun a ha => hl a (by simp [ha])
    have hm : ∀ a ∈ sortSlice less xs, P a :=
      fun a ha => hxs a ((mem_sortSlice less a xs).mp ha)
    exact pairwise_insertLess less P asym htr x hx _ hm (ih hxs)

/-- The comparator of the `sort.Slice` call inside `flatten`
(main.go:287-289): ascending comparison of `strings.Join(Path, "")`.
Go compares strings byte-wise on their UTF-8 encoding, which coincides with
the code-point lexicographic order used by Lean's `String` order. -/
def lessFlat (a b : flatElement) : Bool :=
  decide (String.join a.Path < String.join b.Path)

/-- Translation of the Go function `filter` (main.go:244-257): drop the
leading `pathElement` segment of each path and keep only elements whose
path stays non-empty. -/
def filterF (pathElement : String) : List flatElement → List flatElement
  | [] => []
  | e :: rest =>
    if e.Path.length > 0 then
      let e2 := if e.Path.head? = some pathElement then
          { e with Path := e.Path.tail } else e
      if e2.Path.length > 0 then e2 :: filterF pathElement rest
      else filterF pathElement rest
    else filterF pathElement rest

/-- Translation of the Go function `flattenArray` (main.go:300-321).
`itemsFlat` is the already-computed `flatten(from.items)` (`[]` when
`from.items` is nil, matching `flatten`'s nil check); the function returns
the updated `to` element together with the extended `flatElems` list.
In the Go else-branch the loop repeatedly overwrites `to.ElemType`, which is
a left fold. -/
def flattenArrayCore (fromName : String) (fromItems : Option element)
    (itemsFlat : List flatElement) (toE : flatElement)
    (flatElems : List flatElement) : flatElement × List flatElement :=
  match fromItems with
  | some it =>
    if it.elemtype = "object" then
      let to1 := { toE with ElemType := "[]" ++ it.elemtype }
      let to2 := if to1.Description = "" then
          { to1 with Description :=
            (match itemsFlat with
             | i0 :: _ => i0.Description
             | [] => to1.Description) }
        else to1
      let items2 := (filterF "items" itemsFlat).map
        (fun item => { item with Path := fromName :: item.Path })
      (to2, flatElems ++ items2)
    else
      (itemsFlat.foldl
        (fun t item => { t with ElemType := "[]" ++ item.ElemType }) toE,
       flatElems)
  | none =>
    (itemsFlat.foldl
      (fun t item => { t with ElemType := "[]" ++ item.ElemType }) toE,
     flatElems)

/-- Translation of the Go function `flatten` (main.go:261-291): collect the
flattened children (paths prefixed with this node's name), handle arrays via
`flattenArray`, append the element itself, and sort the result with
`sort.Slice` by the concatenated path. -/
def flatten : element → List flatElement
  | .mk nm ds ty rq its props =>
    let elem0 : flatElement := ⟨[nm], ds, ty, rq⟩
    let childElems := props.attach.flatMap (fun pp =>
      (flatten pp.1).map (fun fe => { fe with Path := nm :: fe.Path }))
    let itemsFlat := match h : its with
      | some it => flatten it
      | none => []
    let pr := if ty = "array" then
        flattenArrayCore nm its itemsFlat elem0 childElems
      else (elem0, childElems)
    sortSlice lessFlat (pr.2 ++ [pr.1])
termination_by e => sizeOf e
decreasing_by
  · have := List.sizeOf_lt_of_mem pp.2
    simp only [element.mk.sizeOf_spec]
    omega
  · simp only [element.mk.sizeOf_spec, h, Option.some.sizeOf_spec]
    omega

/-- Translation of the Go struct `crdVersion` (main.go:81-86). -/
structure crdVersion where
  GKV : String
  Spec : List flatElement
  Status : List flatElement
  Stored : Bool
  Served : Bool
  Deprecated : Bool
  DeprecationWarning : String
deriving DecidableEq, Repr

/-- The comparator of the `sort.Slice` call in `generateDocFromCRD`
(main.go:192-204), translated branch by branch. -/
def lessCrd (v w : crdVersion) : Bool :=
  if v.Stored = w.Stored then decide (w.GKV < v.GKV)
  else if v.Stored && !w.Stored then true
  else if v.Served && !w.Served then true
  else false

/-- The version-list sorting step of `generateDocFromCRD` (main.go:191-204):
`sort.Slice(crdVersions, lessCrd)`. -/
def sortCrdVersions (l : List crdVersion) : List crdVersion :=
  sortSlice lessCrd l

theorem lessFlat_asym (a b : flatElement) :
    lessFlat a b = true → lessFlat b a = false := by
  intro h
  exact decide_eq_false (lt_asymm (of_decide_eq_true h))

theorem lessFlat_negtrans (a b c : flatElement) :
    lessFlat b a = false → lessFlat c b = false → lessFlat c a = false := by
  intro h1 h2
  refine decide_eq_false (fun g3 => ?_)
  have g1 : String.join a.Path ≤ String.join b.Path := not_lt.mp (of_decide_eq_false h1)
  have g2 : String.join b.Path ≤ String.join c.Path := not_lt.mp (of_decide_eq_false h2)
  exact absurd g3 (not_lt.mpr (g1.trans g2))

/-- `lessCrd`, decoded on versions satisfying the storage-implies-served
precondition: it is the strict lexicographic comparison on
(stored-first, GKV descending). -/
theorem lessCrd_true_iff (x y : crdVersion)
    (hx : x.Stored = true → x.Served = true)
    (hy : y.Stored = true → y.Served = true) :
    lessCrd x y = true ↔
      ((x.Stored = true ∧ y.Stored = false) ∨
       (x.Stored = y.Stored ∧ y.GKV < x.GKV)) := by
  cases hsx : x.Stored with
  | true =>
    cases hsy : y.Stored with
    | true => simp [lessCrd, hsx, hsy]
    | false => simp [lessCrd, hsx, hsy]
  | false =>
    cases hsy : y.Stored with
    | true =>
      have hserved : y.Served = true := hy hsy
      simp [lessCrd, hsx, hsy, hserved]
    | false => simp [lessCrd, hsx, hsy]

theorem lessCrd_asym (a b : crdVersion)
    (ha : a.Stored = true → a.Served = true)
    (hb : b.Stored = true → b.Served = true) :
    lessCrd a b = true → lessCrd b a = false := by
  intro h
  rw [Bool.eq_false_iff]
  intro h2
  rcases (lessCrd_true_iff a b ha hb).mp h with ⟨h1a, h1b⟩ | ⟨h1e, h1l⟩ <;>
    rcases (lessCrd_true_iff b a hb ha).mp h2 with ⟨h2a, h2b⟩ | ⟨h2e, h2l⟩
  · rw [h1a] at h2b; simp at h2b
  · rw [h1a, h1b] at h2e; simp at h2e
  · rw [h2a, h2b] at h1e; simp at h1e
  · exact absurd h2l (not_lt.mpr (le_of_lt h1l))

theorem lessCrd_negtrans (a b c : crdVersion)
    (ha : a.Stored = true → a.Served = true)
    (hb : b.Stored = true → b.Served = true)
    (hc : c.Stored = true → c.Served = true) :
    lessCrd b a = false → lessCrd c b = false → lessCrd c a = false := by
  intro h1 h2
  rw [Bool.eq_false_iff] at h1 h2 ⊢
  intro h3
  have n1 := fun g => h1 ((lessCrd_true_iff b a hb ha).mpr g)
  have n2 := fun g => h2 ((lessCrd_true_iff c b hc hb).mpr g)
  rcases (lessCrd_true_iff c a hc ha).mp h3 with ⟨g1, g2⟩ | ⟨ge, gl⟩
  · -- c stored, a not stored: then b stored or not both contradict
    cases hsb : b.Stored with
    | true => exact n1 (Or.inl ⟨hsb, g2⟩)
    | false => exact n2 (Or.inl ⟨g1, hsb⟩)
  · -- c and a equally stored, a.GKV < c.GKV
    cases hsb : b.Stored with
    | true =>
      cases hsa : a.Stored with
      | true =>
        have hsc : c.Stored = true := by rw [ge, hsa]
        have l1 : b.GKV ≤ a.GKV := by
          by_contra hlt
          exact n1 (Or.inr ⟨by rw [hsb, hsa], not_le.mp hlt⟩)
        have l2 : c.GKV ≤ b.GKV := by
          by_contra hlt
          exact n2 (Or.inr ⟨by rw [hsc, hsb], not_le.mp hlt⟩)
        exact absurd gl (not_lt.mpr (l2.trans l1))
      | false => exact n1 (Or.inl ⟨hsb, hsa⟩)
    | false =>
      cases hsa : a.Stored with
      | true =>
        have hsc : c.Stored = true := by rw [ge, hsa]
        exact n2 (Or.inl ⟨hsc, hsb⟩)
      | false =>
        have hsc : c.Stored = false := by rw [ge, hsa]
        have l1 : b.GKV ≤ a.GKV := by
          by_contra hlt
          exact n1 (Or.inr ⟨by rw [hsb, hsa], not_le.mp hlt⟩)
        have l2 : c.GKV ≤ b.GKV := by
          by_contra hlt
          exact n2 (Or.inr ⟨by rw [hsc, hsb], not_le.mp hlt⟩)
        exact absurd gl (not_lt.mpr (l2.trans l1))

end TableGen

open TableGen in
/-- C9: for every element tree `e`, the list returned by `flatten e` is
sorted in ascending lexicographic order of the concatenation of each
`flatElement`'s `Path` segments (the order used by the `sort.Slice` call at
main.go:287-289). -/
theorem c9_flatten_sorted (e : element) :
    (flatten e).Pairwise
      (fun a b => String.join a.Path ≤ String.join b.Path) := by
  have key : ∀ l : List flatElement,
      (sortSlice lessFlat l).Pairwise
        (fun a b => String.join a.Path ≤ String.join b.Path) := by
    intro l
    have h := pairwise_sortSlice lessFlat (fun _ => True)
      (fun a b _ _ => lessFlat_asym a b)
      (fun a b c _ _ _ => lessFlat_negtrans a b c)
      l (fun _ _ => trivial)
    exact h.imp (fun hab => not_lt.mp (of_decide_eq_false hab))
  cases e with
  | mk nm ds ty rq its props =>
    rw [flatten.eq_def]
    exact key _

open TableGen in
/-- C10: in the version list sorted by `generateDocFromCRD` (main.go:192-204),
under the precondition that every version with `storage: true` also has
`served: true`, every stored version precedes every non-stored one, and
versions with equal `Stored` flags appear in descending lexicographic order
of their `GKV` string. -/
theorem c10_crd_versions_sorted (l : List crdVersion)
    (hp : ∀ v ∈ l, v.Stored = true → v.Served = true) :
    (sortCrdVersions l).Pairwise
      (fun a b => (b.Stored = true → a.Stored = true) ∧
                  (a.Stored = b.Stored → b.GKV ≤ a.GKV)) := by
  have h := pairwise_sortSlice lessCrd
    (fun v => v.Stored = true → v.Served = true)
    (fun a b ha hb => lessCrd_asym a b ha hb)
    (fun a b c ha hb hc => lessCrd_negtrans a b c ha hb hc)
    l hp
  refine h.imp (fun {a b} hab => ⟨?_, ?_⟩)
  · intro hsb
    by_contra hsa
    have hsa2 : a.Stored = false := Bool.eq_false_iff.mpr hsa
    have : lessCrd b a = true := by
      simp [lessCrd, hsb, hsa2]
    rw [this] at hab
    exact Bool.true_eq_false.mp hab
  · intro he
    have : ¬ a.GKV < b.GKV := by
      intro hlt
      have : lessCrd b a = true := by
        simp [lessCrd, he.symm, hlt]
      rw [this] at hab
      exact Bool.true_eq_false.mp hab
    exact not_lt.mp this

open TableGen in
/-- Witness for C10 at a concrete two-version list. -/
theorem c10_crd_versions_sorted_witness :
    (∀ v ∈ [crdVersion.mk "a.x/v1" [] [] false true false "",
            crdVersion.mk "b.y/v1" [] [] true true false ""],
       v.Stored = true → v.Served = true) ∧
    (sortCrdVersions [crdVersion.mk "a.x/v1" [] [] false true false "",
                      crdVersion.mk "b.y/v1" [] [] true true false ""]).Pairwise
      (fun a b => (b.Stored = true → a.Stored = true) ∧
                  (a.Stored = b.Stored → b.GKV ≤ a.GKV)) :=
  ⟨by decide, c10_crd_versions_sorted _ (by decide)⟩

namespace JS

/-- Modelled from the spec: §3, subscription identity is `namespace+name`
(the backend implementation is not in the repository snapshot; only its
tests are). -/
structure SubscriptionIdentity where
  ns : String
  name : String
deriving DecidableEq, Repr

/-- Modelled from the spec: §3, matching-mode ∈ Standard, Exact. -/
inductive MatchingMode where
  | standard
  | exact
deriving DecidableEq, Repr

/-- Modelled from the spec: §3 SubscriptionSpec (desired state). -/
structure SubscriptionSpec where
  identity : SubscriptionIdentity
  source : String
  types : List (String × MatchingMode)
  sink : String
  maxInFlightMessages : Nat
deriving DecidableEq, Repr

/-- Modelled from the spec: §7 error taxonomy. -/
inductive JsError where
  | backendUnavailable
  | connectionError
  | invalidEventType
  | missingSubscription
  | consumerOperationFailed
deriving DecidableEq, Repr

/-- Modelled from the spec: §3/§4.2, `SubscriptionSubjectIdentifier` is a
pure value computed from (subscription identity, subject), used both as the
bookkeeping key and as the durable consumer name, with the requirement that
two different pairs never collide.  The missing implementation is modelled
by the canonical collision-free choice: the pair itself. -/
structure SubscriptionSubjectIdentifier where
  identity : SubscriptionIdentity
  subject : String
deriving DecidableEq, Repr

/-- Modelled from the spec: §4.2 `Identifier` / the test's
`NewSubscriptionSubjectIdentifier` (main.go:531, 757, 887): the
deterministic constructor of `SubscriptionSubjectIdentifier`. -/
def NewSubscriptionSubjectIdentifier (identity : SubscriptionIdentity)
    (subject : String) : SubscriptionSubjectIdentifier :=
  ⟨identity, subject⟩

/-- Modelled from the spec: §4.1 Type Cleaner — a deterministic, pure
normalization keeping only subject-safe characters, failing with
`InvalidEventType` when the result is empty after stripping. -/
def cleanEventType (t : String) : Except JsError String :=
  let c := String.mk (t.data.filter
    (fun ch => ch.isAlphanum || ch == '.' || ch == '-'))
  if c = "" then .error .invalidEventType else .ok c

/-- Modelled from the spec: §4.2 `Subject` — concatenates the configured
subject namespace, the source and either the cleaned type (Standard) or the
raw type (Exact), with a fixed separator. -/
def buildSubject (pre source ty : String) (mode : MatchingMode) :
    Except JsError String :=
  match mode with
  | .standard =>
    match cleanEventType ty with
    | .error e => .error e
    | .ok c => .ok (pre ++ "." ++ source ++ "." ++ c)
  | .exact => .ok (pre ++ "." ++ source ++ "." ++ ty)

/-- Modelled from the spec: §4.4 step 2 — for each (type, mode) in
`spec.Types`, compute `Subject` then `Identifier`; the first failure is
returned. -/
def desiredPairs (pre : String) (identity : SubscriptionIdentity)
    (source : String) :
    List (String × MatchingMode) →
    Except JsError (List (SubscriptionSubjectIdentifier × String))
  | [] => .ok []
  | tm :: rest =>
    match buildSubject pre source tm.1 tm.2 with
    | .error e => .error e
    | .ok subj =>
      match desiredPairs pre identity source rest with
      | .error e => .error e
      | .ok ps => .ok ((NewSubscriptionSubjectIdentifier identity subj, subj) :: ps)

/-- Modelled from the spec: a broker-side durable consumer's configuration —
subject filter and max-ack-pending bound (§4.4 step 3, §6). -/
structure ConsumerConfig where
  filterSubject : String
  maxAckPending : Nat
deriving DecidableEq, Repr

/-- Modelled from the spec: §3 ConsumerHandle — the local subscription
object: current sink target used by the dispatch pipeline, the in-flight
bound, and liveness. -/
structure ConsumerHandle where
  sink : String
  maxInFlight : Nat
  live : Bool
deriving DecidableEq, Repr

/-- Association-list lookup (first entry with the given key), the embedding
of a Go map read. -/
def lookupA {β : Type} (k : SubscriptionSubjectIdentifier) :
    List (SubscriptionSubjectIdentifier × β) → Option β
  | [] => none
  | kv :: rest => if kv.1 = k then some kv.2 else lookupA k rest

/-- Association-list write: replace the first entry with the given key, or
append — the embedding of a Go map write. -/
def setA {β : Type} (k : SubscriptionSubjectIdentifier) (v : β) :
    List (SubscriptionSubjectIdentifier × β) →
    List (SubscriptionSubjectIdentifier × β)
  | [] => [(k, v)]
  | kv :: rest => if kv.1 = k then (k, v) :: rest else kv :: setA k v rest

/-- Association-list delete (all entries with the key) — the embedding of a
Go map `delete`. -/
def eraseA {β : Type} (k : SubscriptionSubjectIdentifier)
    (l : List (SubscriptionSubjectIdentifier × β)) :
    List (SubscriptionSubjectIdentifier × β) :=
  l.filter (fun kv => !(decide (kv.1 = k)))

/-- Key list of an association list. -/
def keysA {β : Type} (l : List (SubscriptionSubjectIdentifier × β)) :
    List SubscriptionSubjectIdentifier :=
  l.map Prod.fst

/-- Boolean membership test for identifiers. -/
def memA (k : SubscriptionSubjectIdentifier) :
    List SubscriptionSubjectIdentifier → Bool
  | [] => false
  | x :: xs => if x = k then true else memA k xs

/-- In-place update of a consumer's max-ack-pending limit (§4.4 step 3:
"update only mutable fields ... without deleting/recreating"). -/
def updateMaxAck (k : SubscriptionSubjectIdentifier) (m : Nat) :
    List (SubscriptionSubjectIdentifier × ConsumerConfig) →
    List (SubscriptionSubjectIdentifier × ConsumerConfig)
  | [] => []
  | kv :: rest =>
    if kv.1 = k then (kv.1, { kv.2 with maxAckPending := m }) :: rest
    else kv :: updateMaxAck k m rest

/-- Modelled from the spec: the state the engine acts on — broker
connectivity, stream existence, the broker's durable consumers, the local
bookkeeping table (§3), and the stream's message log (left untouched by
reconciliation; it only changes through publishing/dispatch). -/
structure JsState where
  connected : Bool
  streamExists : Bool
  consumers : List (SubscriptionSubjectIdentifier × ConsumerConfig)
  table : List (SubscriptionSubjectIdentifier × ConsumerHandle)
  streamMsgs : List String
deriving DecidableEq, Repr

/-- Modelled from the spec: §4.4 step 3, the per-identifier action of
`SyncSubscription`.  Present-and-live table entries are updated in place
(sink and ack-pending limits) with no broker create/delete; a present but
dead handle is repaired by rebinding (and recreating the consumer only if it
vanished — the tests resync "to recreate invalid subscriptions or
consumers, if any", main.go:1006, 1095); an identifier absent from the table
whose durable consumer nevertheless exists on the broker yields
`MissingSubscription` (§4.4 step 3, second bullet); otherwise the consumer
is created and registered.  Returns (error, new state, consumers created). -/
def syncStep (sink : String) (m : Nat) (st : JsState)
    (idsub : SubscriptionSubjectIdentifier × String) :
    Option JsError × JsState × Nat :=
  match lookupA idsub.1 st.table with
  | some h =>
    if h.live then
      (none,
       { st with
           table := setA idsub.1 { h with sink := sink, maxInFlight := m } st.table,
           consumers := updateMaxAck idsub.1 m st.consumers }, 0)
    else
      match lookupA idsub.1 st.consumers with
      | some _ =>
        (none,
         { st with
             table := setA idsub.1 ⟨sink, m, true⟩ st.table,
             consumers := updateMaxAck idsub.1 m st.consumers }, 0)
      | none =>
        (none,
         { st with
             table := setA idsub.1 ⟨sink, m, true⟩ st.table,
             consumers := setA idsub.1 ⟨idsub.2, m⟩ st.consumers }, 1)
  | none =>
    match lookupA idsub.1 st.consumers with
    | some _ => (some .missingSubscription, st, 0)
    | none =>
      (none,
       { st with
           table := setA idsub.1 ⟨sink, m, true⟩ st.table,
           consumers := setA idsub.1 ⟨idsub.2, m⟩ st.consumers }, 1)

/-- Modelled from the spec: §4.4 step 3 applied to every desired identifier
in order, stopping at the first error (§4.4 step 5: no rollback, the state
reached so far is kept). -/
def syncLoop (sink : String) (m : Nat) :
    List (SubscriptionSubjectIdentifier × String) → JsState →
    Option JsError × JsState × Nat
  | [], st => (none, st, 0)
  | p :: rest, st =>
    match syncStep sink m st p with
    | (some e, st1, c) => (some e, st1, c)
    | (none, st1, c) =>
      let r := syncLoop sink m rest st1
      (r.1, r.2.1, c + r.2.2)

/-- Modelled from the spec: §4.4 step 4 — every identifier currently in the
table that belongs to this subscription's identity but is absent from the
desired set has its durable consumer deleted from the broker and its table
entry removed (`DeleteSubscription`'s wording, "every table entry whose
identifier belongs to spec's identity", fixes the identity scoping).
Returns the new state and the number of consumers deleted. -/
def orphanP (identity : SubscriptionIdentity)
    (desired : List SubscriptionSubjectIdentifier)
    (id : SubscriptionSubjectIdentifier) : Bool :=
  decide (id.identity = identity) && !(memA id desired)

def deleteOrphans (identity : SubscriptionIdentity)
    (desired : List SubscriptionSubjectIdentifier) (st : JsState) :
    JsState × Nat :=
  let orphanKeys := (keysA st.table).filter (orphanP identity desired)
  ({ st with
       table := st.table.filter (fun kv => !(orphanP identity desired kv.1)),
       consumers := st.consumers.filter (fun kv => !(memA kv.1 orphanKeys)) },
   orphanKeys.length)

/-- The observable outcome of one `SyncSubscription` call: returned error,
resulting state, number of broker consumers created and deleted. -/
structure SyncOutcome where
  err : Option JsError
  state : JsState
  creations : Nat
  deletions : Nat
deriving DecidableEq, Repr

/-- Modelled from the spec: §4.4 `SyncSubscription` — precondition check
(broker connected and stream present, else `BackendUnavailable`), desired
identifier computation, per-identifier reconciliation, orphan deletion,
first-error return with no rollback. -/
def SyncSubscription (pre : String) (s : SubscriptionSpec) (st : JsState) :
    SyncOutcome :=
  if st.connected && st.streamExists then
    match desiredPairs pre s.identity s.source s.types with
    | .error e => ⟨some e, st, 0, 0⟩
    | .ok pairs =>
      match syncLoop s.sink s.maxInFlightMessages pairs st with
      | (some e, st1, c) => ⟨some e, st1, c, 0⟩
      | (none, st1, c) =>
        let del := deleteOrphans s.identity (pairs.map Prod.fst) st1
        ⟨none, del.1, c, del.2⟩
  else ⟨some .backendUnavailable, st, 0, 0⟩

theorem lookupA_setA_self {β : Type} (k : SubscriptionSubjectIdentifier)
    (v : β) (l : List (SubscriptionSubjectIdentifier × β)) :
    lookupA k (setA k v l) = some v := by
  induction l with
  | nil => simp [setA, lookupA]
  | cons kv rest ih =>
    by_cases h : kv.1 = k
    · simp [setA, h, lookupA]
    · simp [setA, h, lookupA, ih]

theorem lookupA_setA_ne {β : Type} {k k2 : SubscriptionSubjectIdentifier}
    (hne : k2 ≠ k) (v : β) (l : List (SubscriptionSubjectIdentifier × β)) :
    lookupA k2 (setA k v l) = lookupA k2 l := by
  induction l with
  | nil => simp [setA, lookupA, hne.symm]
  | cons kv rest ih =>
    by_cases h : kv.1 = k
    · subst h
      have h2 : ¬ (kv.1 = k2) := fun he => hne he.symm
      simp [setA, lookupA, h2]
    · simp only [setA, h, if_false, lookupA]
      by_cases h3 : kv.1 = k2
      · simp [h3]
      · simp [h3, ih]

theorem setA_self {β : Type} {k : SubscriptionSubjectIdentifier} {v : β}
    {l : List (SubscriptionSubjectIdentifier × β)}
    (h : lookupA k l = some v) : setA k v l = l := by
  induction l with
  | nil => simp [lookupA] at h
  | cons kv rest ih =>
    by_cases hk : kv.1 = k
    · simp only [lookupA, hk, if_true, Option.some.injEq] at h
      have he : (k, v) = kv := by rw [← hk, ← h]
      simp [setA, hk, he]
    · simp only [lookupA, hk, if_false] at h
      simp [setA, hk, ih h]

theorem mem_keysA_setA {β : Type} (k a : SubscriptionSubjectIdentifier)
    (v : β) (l : List (SubscriptionSubjectIdentifier × β)) :
    a ∈ keysA (setA k v l) ↔ a ∈ keysA l ∨ a = k := by
  induction l with
  | nil => simp [setA, keysA]
  | cons kv rest ih =>
    by_cases h : kv.1 = k
    · subst h
      simp only [setA, if_true, keysA, List.map_cons, List.mem_cons] at *
      tauto
    · simp only [setA, h, if_false, keysA, List.map_cons, List.mem_cons] at *
      tauto

theorem keysA_setA_isSome {β : Type} {k : SubscriptionSubjectIdentifier}
    {l : List (SubscriptionSubjectIdentifier × β)} (v : β)
    (h : (lookupA k l).isSome = true) : keysA (setA k v l) = keysA l := by
  induction l with
  | nil => simp [lookupA] at h
  | cons kv rest ih =>
    by_cases hk : kv.1 = k
    · subst hk
      simp [setA, keysA]
    · simp only [lookupA, hk, if_false] at h
      simp only [setA, hk, if_false, keysA, List.map_cons] at *
      rw [ih h]

theorem lookupA_isSome_iff_mem_keysA {β : Type}
    (k : SubscriptionSubjectIdentifier)
    (l : List (SubscriptionSubjectIdentifier × β)) :
    (lookupA k l).isSome = true ↔ k ∈ keysA l := by
  induction l with
  | nil => simp [lookupA, keysA]
  | cons kv rest ih =>
    by_cases h : kv.1 = k
    · simp [lookupA, h, keysA]
    · rw [show lookupA k (kv :: rest) = lookupA k rest from by simp [lookupA, h]]
      rw [ih]
      simp only [keysA, List.map_cons, List.mem_cons]
      constructor
      · exact Or.inr
      · rintro (he | hr)
        · exact absurd he.symm h
        · exact hr

theorem lookupA_mem {β : Type} {k : SubscriptionSubjectIdentifier} {v : β}
    {l : List (SubscriptionSubjectIdentifier × β)}
    (h : lookupA k l = some v) : (k, v) ∈ l := by
  induction l with
  | nil => simp [lookupA] at h
  | cons kv rest ih =>
    by_cases hk : kv.1 = k
    · simp only [lookupA, hk, if_true, Option.some.injEq] at h
      have he : (k, v) = kv := by rw [← hk, ← h]
      rw [he]
      exact List.mem_cons_self _ _
    · simp only [lookupA, hk, if_false] at h
      exact List.mem_cons_of_mem _ (ih h)

theorem memA_iff (k : SubscriptionSubjectIdentifier)
    (l : List SubscriptionSubjectIdentifier) :
    memA k l = true ↔ k ∈ l := by
  induction l with
  | nil => simp [memA]
  | cons x xs ih =>
    by_cases h : x = k
    · simp [memA, h]
    · simp [memA, h, Ne.symm h, ih]

theorem lookupA_updateMaxAck_self (k : SubscriptionSubjectIdentifier) (m : Nat)
    (l : List (SubscriptionSubjectIdentifier × ConsumerConfig)) :
    lookupA k (updateMaxAck k m l) =
      (lookupA k l).map (fun c => { c with maxAckPending := m }) := by
  induction l with
  | nil => simp [updateMaxAck, lookupA]
  | cons kv rest ih =>
    by_cases h : kv.1 = k
    · simp [updateMaxAck, h, lookupA]
    · simp [updateMaxAck, h, lookupA, ih]

theorem lookupA_updateMaxAck_ne {k k2 : SubscriptionSubjectIdentifier}
    (hne : k2 ≠ k) (m : Nat)
    (l : List (SubscriptionSubjectIdentifier × ConsumerConfig)) :
    lookupA k2 (updateMaxAck k m l) = lookupA k2 l := by
  induction l with
  | nil => simp [updateMaxAck, lookupA]
  | cons kv rest ih =>
    by_cases h : kv.1 = k
    · subst h
      have h2 : ¬ (kv.1 = k2) := fun he => hne he.symm
      simp [updateMaxAck, lookupA, h2]
    · simp only [updateMaxAck, h, if_false, lookupA]
      by_cases h3 : kv.1 = k2
      · simp [h3]
      · simp [h3, ih]

theorem updateMaxAck_self {k : SubscriptionSubjectIdentifier} {m : Nat}
    {l : List (SubscriptionSubjectIdentifier × ConsumerConfig)} {c : ConsumerConfig}
    (h : lookupA k l = some c) (hm : c.maxAckPending = m) :
    updateMaxAck k m l = l := by
  induction l with
  | nil => simp [lookupA] at h
  | cons kv rest ih =>
    by_cases hk : kv.1 = k
    · simp only [lookupA, hk, if_true, Option.some.injEq] at h
      simp only [updateMaxAck, hk, if_true]
      have hm2 : kv.2.maxAckPending = m := by rw [h, hm]
      have he : ({ kv.2 with maxAckPending := m } : ConsumerConfig) = kv.2 := by
        rw [← hm2]
      rw [he, ← hk]
    · simp only [lookupA, hk, if_false] at h
      simp [updateMaxAck, hk, ih h]

theorem keysA_updateMaxAck (k : SubscriptionSubjectIdentifier) (m : Nat)
    (l : List (SubscriptionSubjectIdentifier × ConsumerConfig)) :
    keysA (updateMaxAck k m l) = keysA l := by
  induction l with
  | nil => simp [updateMaxAck, keysA]
  | cons kv rest ih =>
    by_cases h : kv.1 = k
    · simp [updateMaxAck, h, keysA]
    · simp [updateMaxAck, h, keysA] at *
      exact ih

theorem lookupA_filter_keys {β : Type} (p : SubscriptionSubjectIdentifier → Bool)
    (k : SubscriptionSubjectIdentifier)
    (l : List (SubscriptionSubjectIdentifier × β)) :
    lookupA k (l.filter (fun kv => !(p kv.1))) =
      if p k then none else lookupA k l := by
  induction l with
  | nil => cases hp : p k <;> simp [lookupA, hp]
  | cons kv rest ih =>
    by_cases hk : kv.1 = k
    · subst hk
      cases hp : p kv.1 with
      | true => simp [List.filter_cons, hp, lookupA, ih]
      | false => simp [List.filter_cons, hp, lookupA]
    · cases hpkv : p kv.1 with
      | true =>
        have hf : List.filter (fun kv => !(p kv.1)) (kv :: rest) =
            List.filter (fun kv => !(p kv.1)) rest := by
          simp [List.filter_cons, hpkv]
        rw [hf, ih,
          show lookupA k (kv :: rest) = lookupA k rest from by simp [lookupA, hk]]
      | false =>
        have hf : List.filter (fun kv => !(p kv.1)) (kv :: rest) =
            kv :: List.filter (fun kv => !(p kv.1)) rest := by
          simp [List.filter_cons, hpkv]
        rw [hf,
          show lookupA k (kv :: List.filter (fun kv => !(p kv.1)) rest) =
            lookupA k (List.filter (fun kv => !(p kv.1)) rest) from by
              simp [lookupA, hk],
          ih,
          show lookupA k (kv :: rest) = lookupA k rest from by simp [lookupA, hk]]

theorem mem_setA {β : Type} {kv : SubscriptionSubjectIdentifier × β}
    {k : SubscriptionSubjectIdentifier} {v : β}
    {l : List (SubscriptionSubjectIdentifier × β)}
    (h : kv ∈ setA k v l) : kv = (k, v) ∨ kv ∈ l := by
  induction l with
  | nil => simpa [setA] using h
  | cons kv2 rest ih =>
    by_cases h2 : kv2.1 = k
    · simp only [setA, h2, if_true, List.mem_cons] at h
      rcases h with h | h
      · exact Or.inl h
      · exact Or.inr (List.mem_cons_of_mem _ h)
    · simp only [setA, h2, if_false, List.mem_cons] at h
      rcases h with h | h
      · exact Or.inr (by simp [h])
      · rcases ih h with h | h
        · exact Or.inl h
        · exact Or.inr (List.mem_cons_of_mem _ h)

theorem filter_eq_self_of_all {β : Type}
    (p : (SubscriptionSubjectIdentifier × β) → Bool)
    (l : List (SubscriptionSubjectIdentifier × β))
    (h : ∀ kv ∈ l, p kv = true) : l.filter p = l := by
  induction l with
  | nil => rfl
  | cons kv rest ih =>
    have h1 := h kv (by simp)
    simp [List.filter, h1, ih (fun a ha => h a (by simp [ha]))]

theorem filter_eq_nil_of_none (p : SubscriptionSubjectIdentifier → Bool)
    (l : List SubscriptionSubjectIdentifier)
    (h : ∀ a ∈ l, p a = false) : l.filter p = [] := by
  induction l with
  | nil => rfl
  | cons x xs ih =>
    have h1 := h x (by simp)
    simp [List.filter, h1, ih (fun a ha => h a (by simp [ha]))]


/-- Local well-formedness of the engine state: every tracked handle is live
and its durable consumer exists on the broker (the steady state after
successful synchronizations, cf. spec §3 ConsumerHandle/Bookkeeping Table). -/
def Wf (st : JsState) : Prop :=
  ∀ kv ∈ st.table, kv.2.live = true ∧ (lookupA kv.1 st.consumers).isSome = true

instance (st : JsState) : Decidable (Wf st) := by
  unfold Wf
  infer_instance

theorem Wf_lookup {st : JsState} (hW : Wf st)
    {id : SubscriptionSubjectIdentifier} {h : ConsumerHandle}
    (hl : lookupA id st.table = some h) :
    h.live = true ∧ (lookupA id st.consumers).isSome = true :=
  hW (id, h) (lookupA_mem hl)

/-- The record established for a desired identifier by a successful sync:
table handle exactly (sink, max-in-flight, live) and a broker consumer with
the max-ack-pending limit set. -/
def ER (sink : String) (m : Nat) (id : SubscriptionSubjectIdentifier)
    (st : JsState) : Prop :=
  lookupA id st.table = some ⟨sink, m, true⟩ ∧
  ∃ cfg, lookupA id st.consumers = some cfg ∧ cfg.maxAckPending = m

theorem syncStep_none_frame {sink : String} {m : Nat} {st : JsState}
    {p : SubscriptionSubjectIdentifier × String} {st1 : JsState} {c : Nat}
    (h : syncStep sink m st p = (none, st1, c)) :
    st1.connected = st.connected ∧ st1.streamExists = st.streamExists ∧
    st1.streamMsgs = st.streamMsgs ∧
    lookupA p.1 st1.table = some ⟨sink, m, true⟩ ∧
    (∀ id, id ≠ p.1 → lookupA id st1.table = lookupA id st.table) ∧
    (∀ id, id ≠ p.1 → lookupA id st1.consumers = lookupA id st.consumers) := by
  unfold syncStep at h
  split at h
  next hh hT =>
    split at h
    next hlive =>
      simp only [Prod.mk.injEq, true_and] at h
      obtain ⟨h2, -⟩ := h
      subst h2
      refine ⟨rfl, rfl, rfl, ?_, ?_, ?_⟩
      · simp [lookupA_setA_self, hlive]
      · intro id hid; simp [lookupA_setA_ne hid]
      · intro id hid; simp [lookupA_updateMaxAck_ne hid]
    next hlive =>
      split at h
      next cc hC =>
        simp only [Prod.mk.injEq, true_and] at h
        obtain ⟨h2, -⟩ := h
        subst h2
        refine ⟨rfl, rfl, rfl, ?_, ?_, ?_⟩
        · simp [lookupA_setA_self]
        · intro id hid; simp [lookupA_setA_ne hid]
        · intro id hid; simp [lookupA_updateMaxAck_ne hid]
      next hC =>
        simp only [Prod.mk.injEq, true_and] at h
        obtain ⟨h2, -⟩ := h
        subst h2
        refine ⟨rfl, rfl, rfl, ?_, ?_, ?_⟩
        · simp [lookupA_setA_self]
        · intro id hid; simp [lookupA_setA_ne hid]
        · intro id hid; simp [lookupA_setA_ne hid]
  next hT =>
    split at h
    next cc hC => simp at h
    next hC =>
      simp only [Prod.mk.injEq, true_and] at h
      obtain ⟨h2, -⟩ := h
      subst h2
      refine ⟨rfl, rfl, rfl, ?_, ?_, ?_⟩
      · simp [lookupA_setA_self]
      · intro id hid; simp [lookupA_setA_ne hid]
      · intro id hid; simp [lookupA_setA_ne hid]

theorem syncStep_none_post {sink : String} {m : Nat} {st : JsState}
    {p : SubscriptionSubjectIdentifier × String} {st1 : JsState} {c : Nat}
    (hW : Wf st) (h : syncStep sink m st p = (none, st1, c)) :
    (∃ cfg, lookupA p.1 st1.consumers = some cfg ∧ cfg.maxAckPending = m) ∧
    Wf st1 := by
  have hfr := syncStep_none_frame h
  unfold syncStep at h
  split at h
  next hh hT =>
    have hlive := (Wf_lookup hW hT).1
    have hcons := (Wf_lookup hW hT).2
    rcases Option.isSome_iff_exists.mp hcons with ⟨cc0, hcc0⟩
    split at h
    next hl2 =>
      simp only [Prod.mk.injEq, true_and] at h
      obtain ⟨h2, -⟩ := h
      subst h2
      constructor
      · refine ⟨{ cc0 with maxAckPending := m }, ?_, rfl⟩
        simp [lookupA_updateMaxAck_self, hcc0]
      · intro kv hkv
        have consSome : ∀ idq : SubscriptionSubjectIdentifier,
            (lookupA idq st.consumers).isSome = true →
            (lookupA idq (updateMaxAck p.1 m st.consumers)).isSome = true := by
          intro idq hq
          by_cases hi : idq = p.1
          · subst hi
            rw [lookupA_updateMaxAck_self]
            rcases Option.isSome_iff_exists.mp hq with ⟨q, hqq⟩
            simp [hqq]
          · rw [lookupA_updateMaxAck_ne hi]; exact hq
        rcases mem_setA hkv with he | hm2
        · subst he
          exact ⟨hlive, consSome _ hcons⟩
        · have hold := hW kv hm2
          exact ⟨hold.1, consSome _ hold.2⟩
    next hl2 => exact absurd hlive hl2
  next hT =>
    split at h
    next cc hC => simp at h
    next hC =>
      simp only [Prod.mk.injEq, true_and] at h
      obtain ⟨h2, -⟩ := h
      subst h2
      constructor
      · exact ⟨⟨p.2, m⟩, by simp [lookupA_setA_self], rfl⟩
      · intro kv hkv
        have consSome : ∀ idq : SubscriptionSubjectIdentifier,
            (lookupA idq st.consumers).isSome = true →
            (lookupA idq (setA p.1 ⟨p.2, m⟩ st.consumers)).isSome = true := by
          intro idq hq
          by_cases hi : idq = p.1
          · subst hi; simp [lookupA_setA_self]
          · rw [lookupA_setA_ne hi]; exact hq
        rcases mem_setA hkv with he | hm2
        · subst he
          exact ⟨rfl, by simp [lookupA_setA_self]⟩
        · have hold := hW kv hm2
          exact ⟨hold.1, consSome _ hold.2⟩

theorem syncStep_err {sink : String} {m : Nat} {st : JsState}
    {p : SubscriptionSubjectIdentifier × String} {e : JsError} {st1 : JsState}
    {c : Nat} (h : syncStep sink m st p = (some e, st1, c)) :
    e = .missingSubscription ∧ st1 = st ∧
    lookupA p.1 st.table = none ∧ (lookupA p.1 st.consumers).isSome = true := by
  unfold syncStep at h
  split at h
  next hh hT =>
    split at h
    next hl2 => simp at h
    next hl2 =>
      split at h
      next cc hC => simp at h
      next hC => simp at h
  next hT =>
    split at h
    next cc hC =>
      simp only [Prod.mk.injEq, Option.some.injEq] at h
      exact ⟨h.1.symm, h.2.1.symm, hT, by simp [hC]⟩
    next hC => simp at h

theorem syncStep_live_eq {sink : String} {m : Nat} {st : JsState}
    {p : SubscriptionSubjectIdentifier × String} {hh : ConsumerHandle}
    {cfg : ConsumerConfig}
    (hT : lookupA p.1 st.table = some hh) (hl : hh.live = true)
    (hc : lookupA p.1 st.consumers = some cfg) (hm : cfg.maxAckPending = m) :
    syncStep sink m st p =
      (none, { st with table := setA p.1 ⟨sink, m, true⟩ st.table }, 0) := by
  simp only [syncStep, hT, hl, if_true]
  rw [updateMaxAck_self hc hm]

theorem syncStep_missing_eq {sink : String} {m : Nat} {st : JsState}
    {p : SubscriptionSubjectIdentifier × String} {cc : ConsumerConfig}
    (hT : lookupA p.1 st.table = none)
    (hC : lookupA p.1 st.consumers = some cc) :
    syncStep sink m st p = (some .missingSubscription, st, 0) := by
  simp only [syncStep, hT, hC]

theorem syncStep_preserves_ER {sink : String} {m : Nat} {st : JsState}
    {p : SubscriptionSubjectIdentifier × String} {st1 : JsState} {c : Nat}
    {id : SubscriptionSubjectIdentifier}
    (hW : Wf st) (h : syncStep sink m st p = (none, st1, c))
    (her : ER sink m id st) : ER sink m id st1 := by
  have hfr := syncStep_none_frame h
  by_cases hi : id = p.1
  · subst hi
    exact ⟨hfr.2.2.2.1, (syncStep_none_post hW h).1⟩
  · refine ⟨?_, ?_⟩
    · rw [hfr.2.2.2.2.1 id hi]; exact her.1
    · rcases her.2 with ⟨cfg, hcfg, hmm⟩
      exact ⟨cfg, by rw [hfr.2.2.2.2.2 id hi]; exact hcfg, hmm⟩

theorem syncLoop_preserves_ER {sink : String} {m : Nat}
    {pairs : List (SubscriptionSubjectIdentifier × String)} {st : JsState}
    {st1 : JsState} {c : Nat} {id : SubscriptionSubjectIdentifier}
    (hW : Wf st) (h : syncLoop sink m pairs st = (none, st1, c))
    (her : ER sink m id st) : ER sink m id st1 := by
  induction pairs generalizing st c with
  | nil =>
    simp only [syncLoop, Prod.mk.injEq, true_and] at h
    exact h.1 ▸ her
  | cons p rest ih =>
    rw [syncLoop] at h
    split at h
    next e stm c0 heq => simp at h
    next stm c0 heq =>
      rcases hr : syncLoop sink m rest stm with ⟨e2, st2, c2⟩
      rw [hr] at h
      simp only [Prod.mk.injEq] at h
      obtain ⟨he2, hst2, -⟩ := h
      subst he2; subst hst2
      exact ih ((syncStep_none_post hW heq).2) hr
        (syncStep_preserves_ER hW heq her)

theorem syncLoop_none_post {sink : String} {m : Nat}
    {pairs : List (SubscriptionSubjectIdentifier × String)} {st : JsState}
    {st1 : JsState} {c : Nat}
    (hW : Wf st) (h : syncLoop sink m pairs st = (none, st1, c)) :
    st1.connected = st.connected ∧ st1.streamExists = st.streamExists ∧
    st1.streamMsgs = st.streamMsgs ∧ Wf st1 ∧
    (∀ p ∈ pairs, ER sink m p.1 st1) ∧
    (∀ id, id ∉ pairs.map Prod.fst →
      lookupA id st1.table = lookupA id st.table ∧
      lookupA id st1.consumers = lookupA id st.consumers) := by
  induction pairs generalizing st c with
  | nil =>
    simp only [syncLoop, Prod.mk.injEq, true_and] at h
    obtain ⟨h1, -⟩ := h
    subst h1
    exact ⟨rfl, rfl, rfl, hW, by simp, fun id _ => ⟨rfl, rfl⟩⟩
  | cons p rest ih =>
    rw [syncLoop] at h
    split at h
    next e stm c0 heq => simp at h
    next stm c0 heq =>
      rcases hr : syncLoop sink m rest stm with ⟨e2, st2, c2⟩
      rw [hr] at h
      simp only [Prod.mk.injEq] at h
      obtain ⟨he2, hst2, -⟩ := h
      subst he2; subst hst2
      have hfr := syncStep_none_frame heq
      have hpost := syncStep_none_post hW heq
      have hWm : Wf stm := hpost.2
      have ihr := ih hWm hr
      refine ⟨ihr.1.trans hfr.1, ihr.2.1.trans hfr.2.1,
        ihr.2.2.1.trans hfr.2.2.1, ihr.2.2.2.1, ?_, ?_⟩
      · intro q hq
        rcases List.mem_cons.mp hq with hq | hq
        · subst hq
          exact syncLoop_preserves_ER hWm hr ⟨hfr.2.2.2.1, hpost.1⟩
        · exact ihr.2.2.2.2.1 q hq
      · intro id hid
        have hid1 : id ≠ p.1 := by
          intro he; exact hid (by simp [he])
        have hid2 : id ∉ rest.map Prod.fst := by
          intro he; exact hid (by simp [he])
        have := ihr.2.2.2.2.2 id hid2
        exact ⟨this.1.trans (hfr.2.2.2.2.1 id hid1),
          this.2.trans (hfr.2.2.2.2.2 id hid1)⟩

theorem syncLoop_live {sink : String} {m : Nat}
    {pairs : List (SubscriptionSubjectIdentifier × String)} {st : JsState}
    (hall : ∀ p ∈ pairs,
      (∃ h, lookupA p.1 st.table = some h ∧ h.live = true) ∧
      (∃ cfg, lookupA p.1 st.consumers = some cfg ∧ cfg.maxAckPending = m)) :
    ∃ st1, syncLoop sink m pairs st = (none, st1, 0) ∧
      st1.connected = st.connected ∧ st1.streamExists = st.streamExists ∧
      st1.streamMsgs = st.streamMsgs ∧
      st1.consumers = st.consumers ∧
      keysA st1.table = keysA st.table ∧
      (∀ p ∈ pairs, lookupA p.1 st1.table = some ⟨sink, m, true⟩) ∧
      (∀ id, id ∉ pairs.map Prod.fst →
        lookupA id st1.table = lookupA id st.table) := by
  induction pairs generalizing st with
  | nil =>
    exact ⟨st, rfl, rfl, rfl, rfl, rfl, rfl, by simp, fun id _ => rfl⟩
  | cons p rest ih =>
    obtain ⟨⟨hh, hT, hl⟩, ⟨cfg, hc, hm⟩⟩ := hall p (by simp)
    have hstep := @syncStep_live_eq sink m st p hh cfg hT hl hc hm
    set stm : JsState := { st with table := setA p.1 ⟨sink, m, true⟩ st.table }
      with hstm
    have hallm : ∀ q ∈ rest,
        (∃ h, lookupA q.1 stm.table = some h ∧ h.live = true) ∧
        (∃ cfg2, lookupA q.1 stm.consumers = some cfg2 ∧
          cfg2.maxAckPending = m) := by
      intro q hq
      obtain ⟨⟨hh2, hT2, hl2⟩, ⟨cfg2, hc2, hm2⟩⟩ := hall q (by simp [hq])
      constructor
      · by_cases hq1 : q.1 = p.1
        · rw [hstm]
          refine ⟨⟨sink, m, true⟩, ?_, rfl⟩
          simp only [hq1]
          simp [lookupA_setA_self]
        · exact ⟨hh2, by rw [hstm]; simpa [lookupA_setA_ne hq1] using hT2, hl2⟩
      · exact ⟨cfg2, hc2, hm2⟩
    obtain ⟨st1, hloop, hcn, hse, hsm, hco, hke, hper, hun⟩ := ih hallm
    refine ⟨st1, ?_, hcn, hse, hsm, hco, ?_, ?_, ?_⟩
    · simp [syncLoop, hstep, hloop]
    · rw [hke, hstm]
      exact keysA_setA_isSome _ (by simp [hT])
    · intro q hq
      rcases List.mem_cons.mp hq with hq | hq
      · rw [hq]
        by_cases hin : p.1 ∈ rest.map Prod.fst
        · rcases List.mem_map.mp hin with ⟨q2, hq2, hq2e⟩
          have := hper q2 hq2
          rw [hq2e] at this
          exact this
        · rw [hun p.1 hin, hstm]
          simp [lookupA_setA_self]
      · exact hper q hq
    · intro id hid
      have hid1 : id ≠ p.1 := by
        intro he; exact hid (by simp [he])
      have hid2 : id ∉ rest.map Prod.fst := by
        intro he; exact hid (by simp [he])
      rw [hun id hid2, hstm]
      simp [lookupA_setA_ne hid1]

theorem syncLoop_missing {sink : String} {m : Nat}
    {pairs : List (SubscriptionSubjectIdentifier × String)} {st : JsState}
    {id : SubscriptionSubjectIdentifier}
    (hin : id ∈ pairs.map Prod.fst)
    (hnone : lookupA id st.table = none)
    (hcons : (lookupA id st.consumers).isSome = true)
    (hother : ∀ p ∈ pairs, p.1 ≠ id →
      ∃ h cfg, lookupA p.1 st.table = some h ∧ h.live = true ∧
        lookupA p.1 st.consumers = some cfg ∧ cfg.maxAckPending = m) :
    ∃ st1 c, syncLoop sink m pairs st = (some .missingSubscription, st1, c) ∧
      lookupA id st1.table = none := by
  induction pairs generalizing st with
  | nil => simp at hin
  | cons p rest ih =>
    by_cases hp : p.1 = id
    · rcases Option.isSome_iff_exists.mp hcons with ⟨cc, hcc⟩
      have hT : lookupA p.1 st.table = none := by rw [hp]; exact hnone
      have hC : lookupA p.1 st.consumers = some cc := by rw [hp]; exact hcc
      refine ⟨st, 0, ?_, hnone⟩
      simp [syncLoop, syncStep_missing_eq hT hC]
    · obtain ⟨hh, cfg, hT, hl, hc, hm⟩ := hother p (by simp) hp
      have hstep := @syncStep_live_eq sink m st p hh cfg hT hl hc hm
      set stm : JsState := { st with table := setA p.1 ⟨sink, m, true⟩ st.table }
        with hstm
      have hinr : id ∈ rest.map Prod.fst := by
        rcases List.mem_map.mp hin with ⟨q, hq, hqe⟩
        rcases List.mem_cons.mp hq with hq | hq
        · exact absurd (hq ▸ hqe :) (by rw [← hqe] at hp; intro _; exact hp (hq ▸ rfl))
        · exact List.mem_map.mpr ⟨q, hq, hqe⟩
      have hnonem : lookupA id stm.table = none := by
        rw [hstm]
        have : id ≠ p.1 := fun he => hp he.symm
        simpa [lookupA_setA_ne this] using hnone
      have hconsm : (lookupA id stm.consumers).isSome = true := hcons
      have hotherm : ∀ q ∈ rest, q.1 ≠ id →
          ∃ h2 cfg2, lookupA q.1 stm.table = some h2 ∧ h2.live = true ∧
            lookupA q.1 stm.consumers = some cfg2 ∧
            cfg2.maxAckPending = m := by
        intro q hq hqid
        obtain ⟨h2, cfg2, hT2, hl2, hc2, hm2⟩ :=
          hother q (by simp [hq]) hqid
        by_cases hq1 : q.1 = p.1
        · refine ⟨⟨sink, m, true⟩, cfg, ?_, rfl, ?_, hm⟩
          · rw [hstm]
            simp only [hq1]
            simp [lookupA_setA_self]
          · rw [hstm]
            simpa [hq1] using hc
        · exact ⟨h2, cfg2, by rw [hstm]; simpa [lookupA_setA_ne hq1] using hT2,
            hl2, hc2, hm2⟩
      obtain ⟨st1, c2, hloop, hfin⟩ := ih hinr hnonem hconsm hotherm
      refine ⟨st1, 0 + c2, ?_, hfin⟩
      simp [syncLoop, hstep, hloop]


theorem deleteOrphans_table_lookup (identity : SubscriptionIdentity)
    (desired : List SubscriptionSubjectIdentifier) (st : JsState)
    (id : SubscriptionSubjectIdentifier) :
    lookupA id (deleteOrphans identity desired st).1.table =
      if orphanP identity desired id then none else lookupA id st.table := by
  simp only [deleteOrphans]
  exact lookupA_filter_keys (orphanP identity desired) id st.table

theorem deleteOrphans_consumers_lookup (identity : SubscriptionIdentity)
    (desired : List SubscriptionSubjectIdentifier) (st : JsState)
    (id : SubscriptionSubjectIdentifier) :
    lookupA id (deleteOrphans identity desired st).1.consumers =
      if memA id ((keysA st.table).filter (orphanP identity desired)) then none
      else lookupA id st.consumers := by
  simp only [deleteOrphans]
  exact lookupA_filter_keys
    (fun k => memA k ((keysA st.table).filter (orphanP identity desired)))
    id st.consumers

theorem memA_filter_iff (q : SubscriptionSubjectIdentifier → Bool)
    (id : SubscriptionSubjectIdentifier)
    (keys : List SubscriptionSubjectIdentifier) :
    memA id (keys.filter q) = true ↔ (id ∈ keys ∧ q id = true) := by
  rw [memA_iff, List.mem_filter]

theorem mem_keysA_of_mem {β : Type} {kv : SubscriptionSubjectIdentifier × β}
    {l : List (SubscriptionSubjectIdentifier × β)} (h : kv ∈ l) :
    kv.1 ∈ keysA l :=
  List.mem_map.mpr ⟨kv, h, rfl⟩

theorem deleteOrphans_noop {identity : SubscriptionIdentity}
    {desired : List SubscriptionSubjectIdentifier} {st : JsState}
    (h : ∀ id ∈ keysA st.table, orphanP identity desired id = false) :
    deleteOrphans identity desired st = (st, 0) := by
  have hk : (keysA st.table).filter (orphanP identity desired) = [] :=
    filter_eq_nil_of_none _ _ h
  have ht : st.table.filter (fun kv => !(orphanP identity desired kv.1)) =
      st.table :=
    filter_eq_self_of_all _ _ (fun kv hkv => by
      simp [h kv.1 (mem_keysA_of_mem hkv)])
  simp only [deleteOrphans, hk, ht]
  have hc : st.consumers.filter
      (fun kv => !(memA kv.1 ([] : List SubscriptionSubjectIdentifier))) =
      st.consumers :=
    filter_eq_self_of_all _ _ (fun kv _ => by simp [memA])
  rw [hc]
  rfl

theorem deleteOrphans_Wf {identity : SubscriptionIdentity}
    {desired : List SubscriptionSubjectIdentifier} {st : JsState}
    (hW : Wf st) : Wf (deleteOrphans identity desired st).1 := by
  intro kv hkv
  simp only [deleteOrphans] at hkv
  have hkv2 := List.mem_filter.mp hkv
  have hold := hW kv hkv2.1
  have horph : orphanP identity desired kv.1 = false := by
    have := hkv2.2
    simpa using this
  refine ⟨hold.1, ?_⟩
  rw [deleteOrphans_consumers_lookup]
  have hmem : memA kv.1 ((keysA st.table).filter (orphanP identity desired)) =
      false := by
    rw [Bool.eq_false_iff]
    intro hmt
    have := (memA_filter_iff _ _ _).mp hmt
    rw [horph] at this
    simp at this
  rw [hmem]
  simpa using hold.2

theorem desiredPairs_identity {pre : String} {idn : SubscriptionIdentity}
    {src : String} {l : List (String × MatchingMode)}
    {pairs : List (SubscriptionSubjectIdentifier × String)}
    (h : desiredPairs pre idn src l = .ok pairs) :
    ∀ p ∈ pairs, p.1.identity = idn := by
  induction l generalizing pairs with
  | nil =>
    simp only [desiredPairs, Except.ok.injEq] at h
    subst h
    simp
  | cons tm rest ih =>
    rw [desiredPairs] at h
    split at h
    next e heq => simp at h
    next subj heq =>
      split at h
      next e heq2 => simp at h
      next ps heq2 =>
        simp only [Except.ok.injEq] at h
        subst h
        intro p hp
        rcases List.mem_cons.mp hp with hp | hp
        · rw [hp]; rfl
        · exact ih heq2 p hp

theorem SyncSubscription_unavailable {pre : String} {s : SubscriptionSpec}
    {st : JsState} (h : st.connected = false ∨ st.streamExists = false) :
    SyncSubscription pre s st = ⟨some .backendUnavailable, st, 0, 0⟩ := by
  unfold SyncSubscription
  rcases h with h | h <;> simp [h]

theorem SyncSubscription_eq_of_loop_err {pre : String} {s : SubscriptionSpec}
    {st : JsState} {pairs : List (SubscriptionSubjectIdentifier × String)}
    {e : JsError} {stX : JsState} {c : Nat}
    (hconn : st.connected = true) (hstream : st.streamExists = true)
    (hd : desiredPairs pre s.identity s.source s.types = .ok pairs)
    (hl : syncLoop s.sink s.maxInFlightMessages pairs st = (some e, stX, c)) :
    SyncSubscription pre s st = ⟨some e, stX, c, 0⟩ := by
  unfold SyncSubscription
  simp [hconn, hstream, hd, hl]

theorem SyncSubscription_eq_of_loop_ok {pre : String} {s : SubscriptionSpec}
    {st : JsState} {pairs : List (SubscriptionSubjectIdentifier × String)}
    {stL : JsState} {c : Nat}
    (hconn : st.connected = true) (hstream : st.streamExists = true)
    (hd : desiredPairs pre s.identity s.source s.types = .ok pairs)
    (hl : syncLoop s.sink s.maxInFlightMessages pairs st = (none, stL, c)) :
    SyncSubscription pre s st =
      ⟨none, (deleteOrphans s.identity (pairs.map Prod.fst) stL).1, c,
       (deleteOrphans s.identity (pairs.map Prod.fst) stL).2⟩ := by
  unfold SyncSubscription
  simp [hconn, hstream, hd, hl]

theorem SyncSubscription_inv {pre : String} {s : SubscriptionSpec}
    {st st1 : JsState} {c d : Nat}
    {pairs : List (SubscriptionSubjectIdentifier × String)}
    (hconn : st.connected = true) (hstream : st.streamExists = true)
    (hd : desiredPairs pre s.identity s.source s.types = .ok pairs)
    (h : SyncSubscription pre s st = ⟨none, st1, c, d⟩) :
    ∃ stL, syncLoop s.sink s.maxInFlightMessages pairs st = (none, stL, c) ∧
      st1 = (deleteOrphans s.identity (pairs.map Prod.fst) stL).1 ∧
      d = (deleteOrphans s.identity (pairs.map Prod.fst) stL).2 := by
  rcases hl : syncLoop s.sink s.maxInFlightMessages pairs st with ⟨e0, stL, c0⟩
  cases e0 with
  | some e =>
    rw [SyncSubscription_eq_of_loop_err hconn hstream hd hl] at h
    simp at h
  | none =>
    rw [SyncSubscription_eq_of_loop_ok hconn hstream hd hl] at h
    simp only [SyncOutcome.mk.injEq, true_and] at h
    obtain ⟨h1, h2, h3⟩ := h
    subst h2
    exact ⟨stL, rfl, h1.symm, h3.symm⟩


theorem lookupA_eraseA_self {β : Type} (k : SubscriptionSubjectIdentifier)
    (l : List (SubscriptionSubjectIdentifier × β)) :
    lookupA k (eraseA k l) = none := by
  unfold eraseA
  rw [lookupA_filter_keys (fun x => decide (x = k))]
  simp

theorem lookupA_eraseA_ne {β : Type} {k k2 : SubscriptionSubjectIdentifier}
    (h : k2 ≠ k) (l : List (SubscriptionSubjectIdentifier × β)) :
    lookupA k2 (eraseA k l) = lookupA k2 l := by
  unfold eraseA
  rw [lookupA_filter_keys (fun x => decide (x = k))]
  simp [h]

/-- Postcondition of a successful `SyncSubscription`, combining the loop and
orphan-deletion phases: every desired identifier is tracked live with the
current sink/limits and a broker consumer; identifiers of other
subscriptions are untouched; identifiers of this subscription that are no
longer desired are gone from both the table and the broker. -/
theorem SyncSubscription_none_post {pre : String} {s : SubscriptionSpec}
    {st st1 : JsState} {c d : Nat}
    {pairs : List (SubscriptionSubjectIdentifier × String)}
    (hW : Wf st) (hconn : st.connected = true) (hstream : st.streamExists = true)
    (hd : desiredPairs pre s.identity s.source s.types = .ok pairs)
    (h : SyncSubscription pre s st = ⟨none, st1, c, d⟩) :
    st1.connected = true ∧ st1.streamExists = true ∧
    st1.streamMsgs = st.streamMsgs ∧ Wf st1 ∧
    (∀ p ∈ pairs, ER s.sink s.maxInFlightMessages p.1 st1) ∧
    (∀ id, id ∉ pairs.map Prod.fst → id.identity ≠ s.identity →
       lookupA id st1.table = lookupA id st.table ∧
       lookupA id st1.consumers = lookupA id st.consumers) ∧
    (∀ id, id ∉ pairs.map Prod.fst → id.identity = s.identity →
       lookupA id st1.table = none ∧
       lookupA id st1.consumers =
         (if id ∈ keysA st.table then none else lookupA id st.consumers)) := by
  obtain ⟨stL, hl, hst1, -⟩ := SyncSubscription_inv hconn hstream hd h
  obtain ⟨hc1, hc2, hc3, hWL, hER, hUN⟩ := syncLoop_none_post hW hl
  subst hst1
  have hsc : (deleteOrphans s.identity (pairs.map Prod.fst) stL).1.connected =
      stL.connected := rfl
  have hss : (deleteOrphans s.identity (pairs.map Prod.fst) stL).1.streamExists =
      stL.streamExists := rfl
  have hsm : (deleteOrphans s.identity (pairs.map Prod.fst) stL).1.streamMsgs =
      stL.streamMsgs := rfl
  refine ⟨hsc.trans (hc1.trans hconn), hss.trans (hc2.trans hstream),
    hsm.trans hc3, deleteOrphans_Wf hWL, ?_, ?_, ?_⟩
  · intro p hp
    have her := hER p hp
    have hmemd : memA p.1 (pairs.map Prod.fst) = true :=
      (memA_iff _ _).mpr (List.mem_map.mpr ⟨p, hp, rfl⟩)
    have horph : orphanP s.identity (pairs.map Prod.fst) p.1 = false := by
      simp [orphanP, hmemd]
    constructor
    · rw [deleteOrphans_table_lookup, horph]
      · simpa using her.1
    · rcases her.2 with ⟨cfg, hcfg, hm⟩
      refine ⟨cfg, ?_, hm⟩
      rw [deleteOrphans_consumers_lookup]
      have hnm : memA p.1
          ((keysA stL.table).filter (orphanP s.identity (pairs.map Prod.fst))) =
          false := by
        rw [Bool.eq_false_iff]
        intro hmt
        have := (memA_filter_iff _ _ _).mp hmt
        rw [horph] at this
        simp at this
      rw [hnm]
      simpa using hcfg
  · intro id hid hne
    have horph : orphanP s.identity (pairs.map Prod.fst) id = false := by
      simp [orphanP, hne]
    have hun := hUN id hid
    constructor
    · rw [deleteOrphans_table_lookup, horph]
      · simpa using hun.1
    · rw [deleteOrphans_consumers_lookup]
      have hnm : memA id
          ((keysA stL.table).filter (orphanP s.identity (pairs.map Prod.fst))) =
          false := by
        rw [Bool.eq_false_iff]
        intro hmt
        have := (memA_filter_iff _ _ _).mp hmt
        rw [horph] at this
        simp at this
      rw [hnm]
      simpa using hun.2
  · intro id hid hidy
    have hmemd : memA id (pairs.map Prod.fst) = false := by
      rw [Bool.eq_false_iff]
      intro hmt
      exact hid ((memA_iff _ _).mp hmt)
    have horph : orphanP s.identity (pairs.map Prod.fst) id = true := by
      simp [orphanP, hidy, hmemd]
    have hun := hUN id hid
    constructor
    · rw [deleteOrphans_table_lookup, horph]
      simp
    · rw [deleteOrphans_consumers_lookup]
      have hkeys : id ∈ keysA stL.table ↔ id ∈ keysA st.table := by
        rw [← lookupA_isSome_iff_mem_keysA, ← lookupA_isSome_iff_mem_keysA,
          hun.1]
      by_cases hk : id ∈ keysA st.table
      · have hm : memA id
            ((keysA stL.table).filter (orphanP s.identity (pairs.map Prod.fst))) =
            true :=
          (memA_filter_iff _ _ _).mpr ⟨hkeys.mpr hk, horph⟩
        rw [hm]
        simp [hk]
      · have hm : memA id
            ((keysA stL.table).filter (orphanP s.identity (pairs.map Prod.fst))) =
            false := by
          rw [Bool.eq_false_iff]
          intro hmt
          exact hk (hkeys.mp ((memA_filter_iff _ _ _).mp hmt).1)
        rw [hm]
        simp [hk, hun.2]


theorem syncLoop_noop {sink : String} {m : Nat}
    {pairs : List (SubscriptionSubjectIdentifier × String)} {st : JsState}
    (hall : ∀ p ∈ pairs, ER sink m p.1 st) :
    syncLoop sink m pairs st = (none, st, 0) := by
  induction pairs with
  | nil => rfl
  | cons p rest ih =>
    obtain ⟨hT, cfg, hc, hm⟩ := hall p (by simp)
    have hstep : syncStep sink m st p = (none, st, 0) := by
      have hle := @syncStep_live_eq sink m st p ⟨sink, m, true⟩ cfg hT rfl hc hm
      rw [setA_self hT] at hle
      exact hle
    have ihr := ih (fun q hq => hall q (by simp [hq]))
    simp [syncLoop, hstep, ihr]

/-- After a successful sync, the set of identifiers of this subscription in
the table is exactly the desired set, so no table key is an orphan. -/
theorem post_no_orphans {pre : String} {s : SubscriptionSpec}
    {st st1 : JsState} {c d : Nat}
    {pairs : List (SubscriptionSubjectIdentifier × String)}
    (hW : Wf st) (hconn : st.connected = true) (hstream : st.streamExists = true)
    (hd : desiredPairs pre s.identity s.source s.types = .ok pairs)
    (h : SyncSubscription pre s st = ⟨none, st1, c, d⟩) :
    ∀ id ∈ keysA st1.table, orphanP s.identity (pairs.map Prod.fst) id = false := by
  obtain ⟨-, -, -, -, -, -, hrem⟩ :=
    SyncSubscription_none_post hW hconn hstream hd h
  intro id hkid
  by_cases hdes : id ∈ pairs.map Prod.fst
  · simp [orphanP, (memA_iff _ _).mpr hdes]
  · by_cases hidy : id.identity = s.identity
    · have := (hrem id hdes hidy).1
      rw [← lookupA_isSome_iff_mem_keysA] at hkid
      rw [this] at hkid
      simp at hkid
    · simp [orphanP, hidy]

/-- Shared core of C2 and the error half of C5: removing a desired table
entry out-of-band while the broker consumer survives makes the next sync
fail with `MissingSubscription`, without adopting the orphaned consumer. -/
theorem sync_after_erase_missing {pre : String} {s : SubscriptionSpec}
    {st0 st1 : JsState} {c d : Nat}
    {pairs : List (SubscriptionSubjectIdentifier × String)}
    {idq : SubscriptionSubjectIdentifier} {subjq : String}
    (hW : Wf st0) (hconn : st0.connected = true)
    (hstream : st0.streamExists = true)
    (hd : desiredPairs pre s.identity s.source s.types = .ok pairs)
    (h : SyncSubscription pre s st0 = ⟨none, st1, c, d⟩)
    (hpq : (idq, subjq) ∈ pairs) :
    (SyncSubscription pre s { st1 with table := eraseA idq st1.table }).err =
      some .missingSubscription ∧
    lookupA idq
      (SyncSubscription pre s
        { st1 with table := eraseA idq st1.table }).state.table = none := by
  obtain ⟨hc1, hc2, -, -, hER, -, -⟩ :=
    SyncSubscription_none_post hW hconn hstream hd h
  have herq := hER (idq, subjq) hpq
  have hin : idq ∈ pairs.map Prod.fst :=
    List.mem_map.mpr ⟨(idq, subjq), hpq, rfl⟩
  have hnone : lookupA idq ({ st1 with table := eraseA idq st1.table }).table =
      none := lookupA_eraseA_self idq st1.table
  have hcons : (lookupA idq
      ({ st1 with table := eraseA idq st1.table }).consumers).isSome = true := by
    rcases herq.2 with ⟨cfg, hcfg, -⟩
    show (lookupA idq st1.consumers).isSome = true
    simp [hcfg]
  have hother : ∀ p ∈ pairs, p.1 ≠ idq →
      ∃ h2 cfg, lookupA p.1
          ({ st1 with table := eraseA idq st1.table }).table = some h2 ∧
        h2.live = true ∧
        lookupA p.1 ({ st1 with table := eraseA idq st1.table }).consumers =
          some cfg ∧ cfg.maxAckPending = s.maxInFlightMessages := by
    intro p hp hpne
    have her := hER p hp
    rcases her.2 with ⟨cfg, hcfg, hm⟩
    refine ⟨⟨s.sink, s.maxInFlightMessages, true⟩, cfg, ?_, rfl, ?_, hm⟩
    · show lookupA p.1 (eraseA idq st1.table) = _
      rw [lookupA_eraseA_ne hpne]
      exact her.1
    · exact hcfg
  obtain ⟨stX, cX, hloopX, hfin⟩ :=
    @syncLoop_missing s.sink s.maxInFlightMessages pairs
      { st1 with table := eraseA idq st1.table } idq hin hnone hcons hother
  have heq := @SyncSubscription_eq_of_loop_err pre s
    { st1 with table := eraseA idq st1.table } pairs
    JsError.missingSubscription stX cX
    (by exact hc1) (by exact hc2) hd hloopX
  rw [heq]
  exact ⟨rfl, hfin⟩


/-- Modelled from the spec: §3 BrokerConfig storage types — File survives a
broker-process restart, Memory does not. -/
inductive StorageType where
  | memory
  | file
deriving DecidableEq, Repr

/-- Modelled from the spec (§6, §8): a full broker-process restart drops the
client connection; with Memory storage the stream, its consumers and its
messages are lost; with File storage they survive. -/
def brokerRestart (storage : StorageType) (st : JsState) : JsState :=
  match storage with
  | .memory =>
    { st with
        connected := false, streamExists := false, consumers := [],
        streamMsgs := [] }
  | .file => { st with connected := false }

/-- Modelled from the spec (§4.3) and from the assertions of the test
`TestJetStream_ServerRestart` (main.go:990-1004): with `MaxReconnects = 0`
there is no automatic reconnection at all (the state is untouched); with
`MaxReconnects > 0` the client reconnects and the backend's reconnect
handler re-ensures the stream — the test asserts that after a
Memory-storage restart with reconnects enabled the stream exists again
before any resync ("recreated via reconnect handler for memory storage",
main.go:1002-1003).  Consumers are never touched here; only the next
`SyncSubscription` recreates invalid consumers (main.go:1006-1007). -/
def reconnectHandler (maxReconnects : Nat) (st : JsState) : JsState :=
  if maxReconnects > 0 then { st with connected := true, streamExists := true }
  else st

/-- Modelled from the spec (§4.3 `Initialize`): establish the connection and
ensure the configured stream exists, creating it if absent; idempotent. -/
def Initialize (st : JsState) : JsState :=
  { st with connected := true, streamExists := true }

/-- Per-message dispatch state: still durably queued, or acknowledged and
removed from the stream. -/
inductive MsgState where
  | queued
  | ackd
deriving DecidableEq, Repr

/-- Modelled from the spec: §4.5 dispatch pipeline, one delivery attempt of
one message.  A successful (2xx) sink invocation acknowledges the message;
any failure (non-success response, network error, timeout) leaves it
unacknowledged and durably queued, to be redelivered after the ack-wait
timeout; an acknowledged message is never delivered again. -/
def dispatchAttempt (sinkUp : Bool) : MsgState → MsgState
  | .queued => if sinkUp then .ackd else .queued
  | .ackd => .ackd

/-- Modelled from the spec: the (re)delivery attempts of one message over
time, each attempt seeing the sink's availability at that moment. -/
def runDispatch (attempts : List Bool) (st : MsgState) : MsgState :=
  attempts.foldl (fun s up => dispatchAttempt up s) st

theorem runDispatch_ackd (attempts : List Bool) :
    runDispatch attempts .ackd = .ackd := by
  induction attempts with
  | nil => rfl
  | cons up rest ih => simpa [runDispatch, dispatchAttempt] using ih

theorem runDispatch_queued_iff (attempts : List Bool) :
    runDispatch attempts .queued = .ackd ↔ true ∈ attempts := by
  induction attempts with
  | nil => simp [runDispatch]
  | cons up rest ih =>
    cases up with
    | true =>
      simp [runDispatch, dispatchAttempt]
      have := runDispatch_ackd rest
      simpa [runDispatch] using this
    | false =>
      simpa [runDispatch, dispatchAttempt] using ih


end JS

open JS in
/-- C1: for a successfully synced subscription, changing only the sink and
resyncing returns nil with zero consumer creations and deletions, leaves the
bookkeeping table's key set, the broker's durable consumers and the stream's
messages (hence all acknowledgement state) unchanged, and updates every
tracked handle so that the dispatch pipeline targets the new sink only. -/
theorem c1_sink_change_frame (pre : String) (s : SubscriptionSpec)
    (s2 : String) (st0 st1 : JsState) (c d : Nat)
    (pairs : List (SubscriptionSubjectIdentifier × String))
    (hW : Wf st0) (hconn : st0.connected = true)
    (hstream : st0.streamExists = true)
    (hd : desiredPairs pre s.identity s.source s.types = .ok pairs)
    (h : SyncSubscription pre s st0 = ⟨none, st1, c, d⟩) :
    ∃ st2, SyncSubscription pre { s with sink := s2 } st1 =
        ⟨none, st2, 0, 0⟩ ∧
      keysA st2.table = keysA st1.table ∧
      st2.consumers = st1.consumers ∧
      st2.streamMsgs = st1.streamMsgs ∧
      (∀ p ∈ pairs, lookupA p.1 st2.table =
        some ⟨s2, s.maxInFlightMessages, true⟩) := by
  obtain ⟨hc1, hc2, hc3, hW1, hER, hUNo, hrem⟩ :=
    SyncSubscription_none_post hW hconn hstream hd h
  have hall : ∀ p ∈ pairs,
      (∃ hh, lookupA p.1 st1.table = some hh ∧ hh.live = true) ∧
      (∃ cfg, lookupA p.1 st1.consumers = some cfg ∧
        cfg.maxAckPending = s.maxInFlightMessages) := by
    intro p hp
    obtain ⟨hT, hcons⟩ := hER p hp
    exact ⟨⟨⟨s.sink, s.maxInFlightMessages, true⟩, hT, rfl⟩, hcons⟩
  obtain ⟨stL, hloop, hcn, hse, hsm, hco, hke, hper, hun⟩ :=
    @syncLoop_live s2 s.maxInFlightMessages pairs st1 hall
  have hnoorph : ∀ id ∈ keysA stL.table,
      orphanP s.identity (pairs.map Prod.fst) id = false := by
    rw [hke]
    exact post_no_orphans hW hconn hstream hd h
  have hdel : deleteOrphans ({ s with sink := s2 } : SubscriptionSpec).identity
      (pairs.map Prod.fst) stL = (stL, 0) := deleteOrphans_noop hnoorph
  have hd2 : desiredPairs pre ({ s with sink := s2 } : SubscriptionSpec).identity
      ({ s with sink := s2 } : SubscriptionSpec).source
      ({ s with sink := s2 } : SubscriptionSpec).types = .ok pairs := hd
  have heq := SyncSubscription_eq_of_loop_ok (s := { s with sink := s2 })
    hc1 hc2 hd2 hloop
  rw [hdel] at heq
  exact ⟨stL, heq, hke, hco, hsm, hper⟩

open JS in
/-- C2: if, after a successful sync of `s`, the table entry of one of `s`'s
desired identifiers is removed out-of-band while its durable consumer still
exists on the broker, the next `SyncSubscription` returns
`MissingSubscription` and the orphaned consumer is not adopted back into the
table. -/
theorem c2_out_of_band_removal_missing (pre : String) (s : SubscriptionSpec)
    (st0 st1 : JsState) (c d : Nat)
    (pairs : List (SubscriptionSubjectIdentifier × String))
    (idq : SubscriptionSubjectIdentifier) (subjq : String)
    (hW : Wf st0) (hconn : st0.connected = true)
    (hstream : st0.streamExists = true)
    (hd : desiredPairs pre s.identity s.source s.types = .ok pairs)
    (h : SyncSubscription pre s st0 = ⟨none, st1, c, d⟩)
    (hpq : (idq, subjq) ∈ pairs) :
    (SyncSubscription pre s { st1 with table := eraseA idq st1.table }).err =
      some .missingSubscription ∧
    lookupA idq
      (SyncSubscription pre s
        { st1 with table := eraseA idq st1.table }).state.table = none :=
  sync_after_erase_missing hW hconn hstream hd h hpq

open JS in
/-- C3: immediately resyncing an unchanged subscription after a successful
`SyncSubscription` is idempotent: the second call performs zero consumer
creations and deletions, returns nil, and leaves the state untouched. -/
theorem c3_resync_idempotent (pre : String) (s : SubscriptionSpec)
    (st0 st1 : JsState) (c d : Nat)
    (pairs : List (SubscriptionSubjectIdentifier × String))
    (hW : Wf st0) (hconn : st0.connected = true)
    (hstream : st0.streamExists = true)
    (hd : desiredPairs pre s.identity s.source s.types = .ok pairs)
    (h : SyncSubscription pre s st0 = ⟨none, st1, c, d⟩) :
    SyncSubscription pre s st1 = ⟨none, st1, 0, 0⟩ := by
  obtain ⟨hc1, hc2, hc3, hW1, hER, hUNo, hrem⟩ :=
    SyncSubscription_none_post hW hconn hstream hd h
  have hloop := @syncLoop_noop s.sink s.maxInFlightMessages pairs st1
    (fun p hp => hER p hp)
  have hdel := deleteOrphans_noop (post_no_orphans hW hconn hstream hd h)
  have heq := SyncSubscription_eq_of_loop_ok hc1 hc2 hd hloop
  rw [hdel] at heq
  exact heq

open JS in
/-- C4: removing one event type from a successfully synced subscription and
resyncing (a) fails with `BackendUnavailable` and changes nothing while the
broker is down, and (b) once the broker is back, deletes exactly the durable
consumers and table entries of the removed type — zero creations — while the
remaining desired identifiers stay tracked and bound, and every identifier
belonging to neither the old nor the new desired set is untouched. -/
theorem c4_type_removal_deletes_exactly (pre : String) (s : SubscriptionSpec)
    (st0 st1 : JsState) (c d : Nat)
    (pairs pairs2 : List (SubscriptionSubjectIdentifier × String))
    (types2 : List (String × MatchingMode))
    (hW : Wf st0) (hconn : st0.connected = true)
    (hstream : st0.streamExists = true)
    (hd : desiredPairs pre s.identity s.source s.types = .ok pairs)
    (h : SyncSubscription pre s st0 = ⟨none, st1, c, d⟩)
    (hd2 : desiredPairs pre s.identity s.source types2 = .ok pairs2)
    (hsub : ∀ p ∈ pairs2, p ∈ pairs) :
    SyncSubscription pre { s with types := types2 }
        { st1 with connected := false } =
      ⟨some .backendUnavailable, { st1 with connected := false }, 0, 0⟩ ∧
    ∃ st2 dd, SyncSubscription pre { s with types := types2 } st1 =
        ⟨none, st2, 0, dd⟩ ∧
      (∀ p ∈ pairs2, lookupA p.1 st2.table =
          some ⟨s.sink, s.maxInFlightMessages, true⟩ ∧
        (lookupA p.1 st2.consumers).isSome = true) ∧
      (∀ id, id ∈ pairs.map Prod.fst → id ∉ pairs2.map Prod.fst →
        lookupA id st2.table = none ∧ lookupA id st2.consumers = none) ∧
      (∀ id, id ∉ pairs.map Prod.fst → id ∉ pairs2.map Prod.fst →
        lookupA id st2.table = lookupA id st1.table ∧
        lookupA id st2.consumers = lookupA id st1.consumers) := by
  obtain ⟨hc1, hc2, hc3, hW1, hER, hUNo, hrem⟩ :=
    SyncSubscription_none_post hW hconn hstream hd h
  constructor
  · exact SyncSubscription_unavailable (Or.inl rfl)
  · have hall : ∀ p ∈ pairs2,
        (∃ hh, lookupA p.1 st1.table = some hh ∧ hh.live = true) ∧
        (∃ cfg, lookupA p.1 st1.consumers = some cfg ∧
          cfg.maxAckPending = s.maxInFlightMessages) := by
      intro p hp
      obtain ⟨hT, hcons⟩ := hER p (hsub p hp)
      exact ⟨⟨⟨s.sink, s.maxInFlightMessages, true⟩, hT, rfl⟩, hcons⟩
    obtain ⟨stL, hloop, hcn, hse, hsm, hco, hke, hper, hun⟩ :=
      @syncLoop_live s.sink s.maxInFlightMessages pairs2 st1 hall
    have hd2' : desiredPairs pre
        ({ s with types := types2 } : SubscriptionSpec).identity
        ({ s with types := types2 } : SubscriptionSpec).source
        ({ s with types := types2 } : SubscriptionSpec).types = .ok pairs2 :=
      hd2
    have heq := SyncSubscription_eq_of_loop_ok (s := { s with types := types2 })
      hc1 hc2 hd2' hloop
    refine ⟨_, _, heq, ?_, ?_, ?_⟩
    · intro p hp
      have hmemd : memA p.1 (pairs2.map Prod.fst) = true :=
        (memA_iff _ _).mpr (List.mem_map.mpr ⟨p, hp, rfl⟩)
      have horph : orphanP ({ s with types := types2 } : SubscriptionSpec).identity
          (pairs2.map Prod.fst) p.1 = false := by
        simp [orphanP, hmemd]
      constructor
      · rw [deleteOrphans_table_lookup, horph]
        · simpa using hper p hp
      · rw [deleteOrphans_consumers_lookup]
        have hnm : memA p.1 ((keysA stL.table).filter
            (orphanP ({ s with types := types2 } : SubscriptionSpec).identity
              (pairs2.map Prod.fst))) = false := by
          rw [Bool.eq_false_iff]
          intro hmt
          have := (memA_filter_iff _ _ _).mp hmt
          rw [horph] at this
          simp at this
        rw [hnm]
        obtain ⟨-, cfg, hcfg, -⟩ := hER p (hsub p hp)
        simp only [if_false, Bool.false_eq_true]
        rw [hco, hcfg]
        rfl
    · intro id hid hid2
      rcases List.mem_map.mp hid with ⟨q, hq, hqe⟩
      have hidy : id.identity =
          ({ s with types := types2 } : SubscriptionSpec).identity := by
        rw [← hqe]
        exact desiredPairs_identity hd q hq
      have hmemd : memA id (pairs2.map Prod.fst) = false := by
        rw [Bool.eq_false_iff]
        intro hmt
        exact hid2 ((memA_iff _ _).mp hmt)
      have horph : orphanP ({ s with types := types2 } : SubscriptionSpec).identity
          (pairs2.map Prod.fst) id = true := by
        simp [orphanP, hidy, hmemd]
      have hkid : id ∈ keysA stL.table := by
        rw [hke, ← lookupA_isSome_iff_mem_keysA, ← hqe]
        rw [(hER q hq).1]
        rfl
      constructor
      · rw [deleteOrphans_table_lookup, horph]
        simp
      · rw [deleteOrphans_consumers_lookup]
        have hnm : memA id ((keysA stL.table).filter
            (orphanP ({ s with types := types2 } : SubscriptionSpec).identity
              (pairs2.map Prod.fst))) = true :=
          (memA_filter_iff _ _ _).mpr ⟨hkid, horph⟩
        rw [hnm]
        simp
    · intro id hid hid2
      have hun2 := hun id hid2
      by_cases hidy : id.identity = s.identity
      · have hidy2 : id.identity =
            ({ s with types := types2 } : SubscriptionSpec).identity := hidy
        have hmemd : memA id (pairs2.map Prod.fst) = false := by
          rw [Bool.eq_false_iff]
          intro hmt
          exact hid2 ((memA_iff _ _).mp hmt)
        have horph : orphanP
            ({ s with types := types2 } : SubscriptionSpec).identity
            (pairs2.map Prod.fst) id = true := by
          simp [orphanP, hidy2, hmemd]
        have hnone1 : lookupA id st1.table = none := (hrem id hid hidy).1
        have hnk : id ∉ keysA stL.table := by
          rw [hke, ← lookupA_isSome_iff_mem_keysA, hnone1]
          simp
        constructor
        · rw [deleteOrphans_table_lookup, horph, hnone1]
          simp
        · rw [deleteOrphans_consumers_lookup]
          have hnm : memA id ((keysA stL.table).filter
              (orphanP ({ s with types := types2 } : SubscriptionSpec).identity
                (pairs2.map Prod.fst))) = false := by
            rw [Bool.eq_false_iff]
            intro hmt
            exact hnk ((memA_filter_iff _ _ _).mp hmt).1
          rw [hnm, hco]
          simp
      · have hidy2 : ¬ (id.identity =
            ({ s with types := types2 } : SubscriptionSpec).identity) := hidy
        have horph : orphanP
            ({ s with types := types2 } : SubscriptionSpec).identity
            (pairs2.map Prod.fst) id = false := by
          simp [orphanP, hidy2]
        constructor
        · rw [deleteOrphans_table_lookup, horph]
          · simpa using hun2
        · rw [deleteOrphans_consumers_lookup]
          have hnm : memA id ((keysA stL.table).filter
              (orphanP ({ s with types := types2 } : SubscriptionSpec).identity
                (pairs2.map Prod.fst))) = false := by
            rw [Bool.eq_false_iff]
            intro hmt
            have := (memA_filter_iff _ _ _).mp hmt
            rw [horph] at this
            simp at this
          rw [hnm, hco]
          simp

open JS in
/-- C5: after a successful `SyncSubscription` on a table holding only this
subscription's identifiers, the table's key set equals exactly the
identifiers derivable from the subscription's current Types; and a mismatch
created by removing any desired entry is reported as a
`MissingSubscription` error on the next sync rather than silently
repaired. -/
theorem c5_key_set_invariant (pre : String) (s : SubscriptionSpec)
    (st0 st1 : JsState) (c d : Nat)
    (pairs : List (SubscriptionSubjectIdentifier × String))
    (hW : Wf st0) (hconn : st0.connected = true)
    (hstream : st0.streamExists = true)
    (hoid : ∀ kv ∈ st0.table, kv.1.identity = s.identity)
    (hd : desiredPairs pre s.identity s.source s.types = .ok pairs)
    (h : SyncSubscription pre s st0 = ⟨none, st1, c, d⟩) :
    (∀ id, id ∈ keysA st1.table ↔ id ∈ pairs.map Prod.fst) ∧
    (∀ idq subjq, (idq, subjq) ∈ pairs →
      (SyncSubscription pre s { st1 with table := eraseA idq st1.table }).err =
        some .missingSubscription) := by
  obtain ⟨hc1, hc2, hc3, hW1, hER, hUNo, hrem⟩ :=
    SyncSubscription_none_post hW hconn hstream hd h
  constructor
  · intro id
    constructor
    · intro hk
      by_cases hdes : id ∈ pairs.map Prod.fst
      · exact hdes
      · exfalso
        by_cases hidy : id.identity = s.identity
        · rw [← lookupA_isSome_iff_mem_keysA, (hrem id hdes hidy).1] at hk
          simp at hk
        · rw [← lookupA_isSome_iff_mem_keysA, (hUNo id hdes hidy).1,
            lookupA_isSome_iff_mem_keysA] at hk
          rcases List.mem_map.mp hk with ⟨kv, hkv, hke⟩
          exact hidy (hke ▸ hoid kv hkv)
    · intro hdes
      rcases List.mem_map.mp hdes with ⟨p, hp, hpe⟩
      rw [← lookupA_isSome_iff_mem_keysA, ← hpe, (hER p hp).1]
      rfl
  · intro idq subjq hpq
    exact (sync_after_erase_missing hW hconn hstream hd h hpq).1

open JS in
/-- C6, counterexample: the claim that automatic reconnection never
recreates a lost Memory-backed stream is refuted by the modelled reconnect
handler (taken from the assertions of `TestJetStream_ServerRestart`,
main.go:996-1004): after a Memory-storage broker restart with
`MaxReconnects = 10`, the stream exists again without any `Initialize` or
`SyncSubscription` call. -/
theorem c6_reconnect_counterexample :
    ¬ ((reconnectHandler 10 (brokerRestart .memory
          ⟨true, true, [], [], ["m1"]⟩)).streamExists =
       (brokerRestart .memory
          ⟨true, true, [], [], ["m1"]⟩).streamExists) := by
  decide

open JS in
/-- C6, amended: automatic reconnection never repairs consumers; when
automatic reconnection is disabled (`MaxReconnects = 0`) the reconnect
handler changes nothing, so a lost stream can only reappear through the next
`Initialize` or `SyncSubscription`; when reconnection is enabled, the
reconnect handler itself re-ensures (recreates) the stream, and `Initialize`
always ensures the stream exists. -/
theorem c6_reconnect_amended (mr : Nat) (st : JsState) :
    (reconnectHandler mr st).consumers = st.consumers ∧
    (mr = 0 → reconnectHandler mr st = st) ∧
    (Initialize st).streamExists = true := by
  refine ⟨?_, ?_, rfl⟩
  · unfold reconnectHandler
    split <;> rfl
  · intro hmr
    subst hmr
    rfl

open JS in
/-- Witness for the amended C6 at a concrete state with reconnects
disabled. -/
theorem c6_reconnect_amended_witness :
    (reconnectHandler 0 (JsState.mk true true [] [] [])).consumers =
      (JsState.mk true true [] [] []).consumers ∧
    reconnectHandler 0 (JsState.mk true true [] [] []) =
      JsState.mk true true [] [] [] ∧
    (Initialize (JsState.mk true true [] [] [])).streamExists = true :=
  ⟨(c6_reconnect_amended 0 (JsState.mk true true [] [] [])).1,
   (c6_reconnect_amended 0 (JsState.mk true true [] [] [])).2.1 rfl,
   (c6_reconnect_amended 0 (JsState.mk true true [] [] [])).2.2⟩

open JS in
/-- C7: `NewSubscriptionSubjectIdentifier` is a pure function of
(subscription identity, subject): two applications agree exactly when their
inputs agree — the same pair always yields the same identifier, and two
different pairs never collide. -/
theorem c7_identifier_deterministic_injective
    (i1 i2 : SubscriptionIdentity) (s1 s2 : String) :
    NewSubscriptionSubjectIdentifier i1 s1 =
        NewSubscriptionSubjectIdentifier i2 s2 ↔
      (i1 = i2 ∧ s1 = s2) := by
  unfold NewSubscriptionSubjectIdentifier
  constructor
  · intro h
    injection h with h1 h2
    exact ⟨h1, h2⟩
  · rintro ⟨rfl, rfl⟩
    rfl

open JS in
/-- C8: over any sequence of (re)delivery attempts of one message, the
message is acknowledged exactly when some attempt reached the sink
successfully; while every attempt fails it stays durably queued — never
lost, never falsely acknowledged; and once acknowledged it stays
acknowledged (no further delivery). -/
theorem c8_at_least_once (attempts : List Bool) :
    (runDispatch attempts .queued = .ackd ↔ true ∈ attempts) ∧
    (runDispatch attempts .queued = .queued ↔ true ∉ attempts) ∧
    runDispatch attempts .ackd = .ackd := by
  refine ⟨runDispatch_queued_iff attempts, ?_, runDispatch_ackd attempts⟩
  have hdich : runDispatch attempts .queued = MsgState.queued ↔
      ¬ (runDispatch attempts .queued = MsgState.ackd) := by
    cases runDispatch attempts MsgState.queued <;> simp
  rw [hdich, runDispatch_queued_iff]

namespace JS

/-- Concrete fixture: fresh engine state. -/
def wSt0 : JsState := ⟨true, true, [], [], []⟩

/-- Concrete fixture: one-type subscription spec. -/
def wS1 : SubscriptionSpec :=
  ⟨⟨"ns", "sub"⟩, "app", [("order.created", MatchingMode.standard)],
   "http://s1", 9⟩

/-- Concrete fixture: the identifier derived from `wS1`'s single type. -/
def wId1 : SubscriptionSubjectIdentifier :=
  ⟨⟨"ns", "sub"⟩, "kyma.app.order.created"⟩

/-- Concrete fixture: the desired pairs of `wS1`. -/
def wPairs1 : List (SubscriptionSubjectIdentifier × String) :=
  [(wId1, "kyma.app.order.created")]

/-- Concrete fixture: the state after syncing `wS1` from `wSt0`. -/
def wSt1 : JsState :=
  ⟨true, true, [(wId1, ⟨"kyma.app.order.created", 9⟩)],
   [(wId1, ⟨"http://s1", 9, true⟩)], []⟩

/-- Concrete fixture: two-type subscription spec. -/
def wS2 : SubscriptionSpec :=
  ⟨⟨"ns", "sub"⟩, "app",
   [("order.created", MatchingMode.standard),
    ("order.deleted", MatchingMode.standard)],
   "http://s1", 9⟩

/-- Concrete fixture: the identifier derived from `wS2`'s second type. -/
def wId2 : SubscriptionSubjectIdentifier :=
  ⟨⟨"ns", "sub"⟩, "kyma.app.order.deleted"⟩

/-- Concrete fixture: the desired pairs of `wS2`. -/
def wPairs2 : List (SubscriptionSubjectIdentifier × String) :=
  [(wId1, "kyma.app.order.created"), (wId2, "kyma.app.order.deleted")]

/-- Concrete fixture: the state after syncing `wS2` from `wSt0`. -/
def wSt2 : JsState :=
  ⟨true, true,
   [(wId1, ⟨"kyma.app.order.created", 9⟩),
    (wId2, ⟨"kyma.app.order.deleted", 9⟩)],
   [(wId1, ⟨"http://s1", 9, true⟩), (wId2, ⟨"http://s1", 9, true⟩)], []⟩

end JS

open JS in
/-- Witness for C1 at a concrete one-type subscription. -/
theorem c1_sink_change_frame_witness :
    Wf wSt0 ∧
    SyncSubscription "kyma" wS1 wSt0 = ⟨none, wSt1, 1, 0⟩ ∧
    (∃ st2, SyncSubscription "kyma" { wS1 with sink := "http://s2" } wSt1 =
        ⟨none, st2, 0, 0⟩ ∧
      keysA st2.table = keysA wSt1.table ∧
      st2.consumers = wSt1.consumers ∧
      st2.streamMsgs = wSt1.streamMsgs ∧
      (∀ p ∈ wPairs1, lookupA p.1 st2.table =
        some ⟨"http://s2", wS1.maxInFlightMessages, true⟩)) :=
  ⟨by decide, by decide,
   c1_sink_change_frame "kyma" wS1 "http://s2" wSt0 wSt1 1 0 wPairs1
     (by decide) (by decide) (by decide) rfl (by decide)⟩

open JS in
/-- Witness for C2: removing the tracked entry for `wId1` out-of-band and
resyncing yields `MissingSubscription` without re-adoption. -/
theorem c2_out_of_band_removal_missing_witness :
    Wf wSt0 ∧
    SyncSubscription "kyma" wS1 wSt0 = ⟨none, wSt1, 1, 0⟩ ∧
    (wId1, "kyma.app.order.created") ∈ wPairs1 ∧
    (SyncSubscription "kyma" wS1
        { wSt1 with table := eraseA wId1 wSt1.table }).err =
      some .missingSubscription ∧
    lookupA wId1
      (SyncSubscription "kyma" wS1
        { wSt1 with table := eraseA wId1 wSt1.table }).state.table = none :=
  ⟨by decide, by decide, by decide,
   (c2_out_of_band_removal_missing "kyma" wS1 wSt0 wSt1 1 0 wPairs1 wId1
     "kyma.app.order.created" (by decide) (by decide) (by decide) rfl
     (by decide) (by decide)).1,
   (c2_out_of_band_removal_missing "kyma" wS1 wSt0 wSt1 1 0 wPairs1 wId1
     "kyma.app.order.created" (by decide) (by decide) (by decide) rfl
     (by decide) (by decide)).2⟩

open JS in
/-- Witness for C3 at a concrete one-type subscription. -/
theorem c3_resync_idempotent_witness :
    Wf wSt0 ∧
    SyncSubscription "kyma" wS1 wSt0 = ⟨none, wSt1, 1, 0⟩ ∧
    SyncSubscription "kyma" wS1 wSt1 = ⟨none, wSt1, 0, 0⟩ :=
  ⟨by decide, by decide,
   c3_resync_idempotent "kyma" wS1 wSt0 wSt1 1 0 wPairs1
     (by decide) (by decide) (by decide) rfl (by decide)⟩

open JS in
/-- Witness for C4: removing the second type of a two-type subscription. -/
theorem c4_type_removal_deletes_exactly_witness :
    Wf wSt0 ∧
    SyncSubscription "kyma" wS2 wSt0 = ⟨none, wSt2, 2, 0⟩ ∧
    (∀ p ∈ wPairs1, p ∈ wPairs2) ∧
    (SyncSubscription "kyma"
        { wS2 with types := [("order.created", MatchingMode.standard)] }
        { wSt2 with connected := false } =
      ⟨some .backendUnavailable, { wSt2 with connected := false }, 0, 0⟩ ∧
    ∃ st2 dd, SyncSubscription "kyma"
        { wS2 with types := [("order.created", MatchingMode.standard)] }
        wSt2 = ⟨none, st2, 0, dd⟩ ∧
      (∀ p ∈ wPairs1, lookupA p.1 st2.table =
          some ⟨wS2.sink, wS2.maxInFlightMessages, true⟩ ∧
        (lookupA p.1 st2.consumers).isSome = true) ∧
      (∀ id, id ∈ wPairs2.map Prod.fst → id ∉ wPairs1.map Prod.fst →
        lookupA id st2.table = none ∧ lookupA id st2.consumers = none) ∧
      (∀ id, id ∉ wPairs2.map Prod.fst → id ∉ wPairs1.map Prod.fst →
        lookupA id st2.table = lookupA id wSt2.table ∧
        lookupA id st2.consumers = lookupA id wSt2.consumers)) :=
  ⟨by decide, by decide, by decide,
   c4_type_removal_deletes_exactly "kyma" wS2 wSt0 wSt2 2 0 wPairs2 wPairs1
     [("order.created", MatchingMode.standard)]
     (by decide) (by decide) (by decide) rfl (by decide) rfl
     (by decide)⟩

open JS in
/-- Witness for C5 at a concrete one-type subscription over a fresh table. -/
theorem c5_key_set_invariant_witness :
    Wf wSt0 ∧
    (∀ kv ∈ wSt0.table, kv.1.identity = wS1.identity) ∧
    SyncSubscription "kyma" wS1 wSt0 = ⟨none, wSt1, 1, 0⟩ ∧
    (∀ id, id ∈ keysA wSt1.table ↔ id ∈ wPairs1.map Prod.fst) ∧
    (∀ idq subjq, (idq, subjq) ∈ wPairs1 →
      (SyncSubscription "kyma" wS1
          { wSt1 with table := eraseA idq wSt1.table }).err =
        some .missingSubscription) :=
  ⟨by decide, by decide, by decide,
   (c5_key_set_invariant "kyma" wS1 wSt0 wSt1 1 0 wPairs1
     (by decide) (by decide) (by decide) (by decide) rfl
     (by decide)).1,
   (c5_key_set_invariant "kyma" wS1 wSt0 wSt1 1 0 wPairs1
     (by decide) (by decide) (by decide) (by decide) rfl
     (by decide)).2⟩
